import Mathlib

/-!
Programs with std::thread / std::condition_variable snippets of `main.cpp`

Shallow embedding of the condition-variable programs of `src/main.cpp`
(`TEST == 5`, `TEST == 6` and the selected `TEST == 7`) as interleaving
transition systems.  Every statement that touches shared state (`mtx`, `cv`,
`is_ready`, `std::cout`) is one atomic step of the thread executing it; a
scheduler choice selects which thread moves next.  `sleep_for` only delays a
thread, so it is not a step: every timing of the real program is one of the
interleavings considered here.

`cv.wait(lock, pred)` is the library loop `while (!pred()) wait(lock);` where
`wait(lock)` atomically releases `mtx` and blocks on `cv`, and re-locks `mtx`
after being unblocked by `notify_one` or by a spurious wake-up.
`cv.notify_one()` unblocks one of the threads currently blocked on `cv`, if
there is any.
-/

namespace Test7

/-- Threads of the `TEST == 7` program: `main` and `threads[i]`. -/
inductive Tid where
  | main
  | thread (i : Nat)
  deriving DecidableEq, Repr

/-- Observable actions, recorded in program order of the interleaving. -/
inductive Event where
  /-- Line `THREAD in  n` written to `std::cout`. -/
  | cout_in (n : Int)
  /-- Line `THREAD out n` written to `std::cout`. -/
  | cout_out (n : Int)
  /-- Line `notify_all()` written to `std::cout`. -/
  | cout_notify_all
  /-- Line `DONE` written to `std::cout`. -/
  | cout_done
  /-- Evaluation of `is_ready[n]` by thread `t`. -/
  | read (t : Tid) (n : Int)
  /-- Assignment `is_ready[i] = v` by thread `t`. -/
  | write (t : Tid) (i : Nat) (v : Bool)
  /-- A call of `cv.notify_one()`. -/
  | notify_one
  deriving DecidableEq, Repr

/-- Control points of `void print(int n)` (lines 340-348). -/
inductive PrintPc where
  /-- Thread `threads[i]` is default-constructed, `print` does not run yet. -/
  | not_started
  /-- Line 342: constructing `std::unique_lock lock(mtx)`. -/
  | entry
  /-- Line 344: output of `THREAD in  n`, `mtx` held. -/
  | cout_in
  /-- Line 345, inside `cv.wait(lock, pred)`: evaluating `is_ready[n]`, `mtx` held. -/
  | wait_test
  /-- Line 345: the predicate was false, calling `wait(lock)`, `mtx` held. -/
  | wait_suspend
  /-- Line 345: blocked on `cv`, `mtx` released. -/
  | wait_blocked
  /-- Line 345: unblocked, re-locking `mtx`. -/
  | wait_woken
  /-- Line 347: output of `THREAD out n`, `mtx` held. -/
  | cout_out
  /-- Line 348: destructor of `lock` releases `mtx`. -/
  | unlock
  /-- The call `print(n)` has returned. -/
  | finished
  /-- The thread evaluated `is_ready[n]` outside the array: undefined behaviour. -/
  | undefined
  deriving DecidableEq, Repr

/-- Control points of `int main()` (lines 350-385). -/
inductive MainPc where
  /-- Line 353: `std::lock_guard lock(mtx)`. -/
  | init_lock
  /-- Line 354: `for(i) is_ready[i] = false`, loop counter `i`. -/
  | init_loop (i : Nat)
  /-- Line 355: end of scope, `mtx` released. -/
  | init_unlock
  /-- Lines 358-361: `threads[i] = std::thread(print, i)`, loop counter `i`. -/
  | spawn (i : Nat)
  /-- Line 366: `std::lock_guard lock(mtx)`. -/
  | set_lock
  /-- Line 368: output of `notify_all()`. -/
  | set_cout
  /-- Line 369: `for(i) is_ready[i] = true`, loop counter `i`. -/
  | set_loop (i : Nat)
  /-- Line 372: end of scope, `mtx` released. -/
  | set_unlock
  /-- Lines 373-375: loop test and `std::lock_guard lock(mtx)`, loop counter `i`. -/
  | notify_lock (i : Nat)
  /-- Line 376: `cv.notify_one()`. -/
  | notify (i : Nat)
  /-- Line 377: end of scope, `mtx` released. -/
  | notify_unlock (i : Nat)
  /-- Lines 381-382: `t.join()` for `threads[i]`. -/
  | join (i : Nat)
  /-- Line 384: output of `DONE`. -/
  | cout_done
  /-- Function `main` has returned. -/
  | finished
  deriving DecidableEq, Repr

/-- Global state of the program: the globals `is_ready`, `mtx` (its owner),
the control point of every thread, and the record of observable actions
(most recent first).  The condition variable `cv` has no state of its own: the
threads blocked on it are those at `PrintPc.wait_blocked`. -/
structure State where
  is_ready : List Bool
  mtx : Option Tid
  main : MainPc
  threads : List PrintPc
  trace : List Event
  deriving DecidableEq, Repr

/-- Program start: `bool is_ready[10]` has static storage and is
zero-initialised, `mtx` is free, no thread has been started. -/
def init : State :=
  { is_ready := List.replicate 10 false
    mtx := none
    main := .init_lock
    threads := List.replicate 10 .not_started
    trace := [] }

/-- Evaluation of `is_ready[n]` for an `int n`: `none` when `n` is outside the
ten elements of the array (the access is then undefined behaviour). -/
def read_is_ready (is_ready : List Bool) (n : Int) : Option Bool :=
  if n < 0 then none else is_ready[n.toNat]?

/-- One step of `print(n)` run by thread `me` from control point `pc`.
Returns the next control point and the new global state, `none` when the
thread cannot move (waiting for `mtx`, blocked on `cv`, or terminated). -/
def print (n : Int) (me : Tid) : PrintPc → State → Option (PrintPc × State)
  | .not_started, _ => none
  | .entry, s =>
      if s.mtx = none then some (.cout_in, { s with mtx := some me }) else none
  | .cout_in, s => some (.wait_test, { s with trace := .cout_in n :: s.trace })
  | .wait_test, s =>
      match read_is_ready s.is_ready n with
      | none => some (.undefined, { s with trace := .read me n :: s.trace })
      | some true => some (.cout_out, { s with trace := .read me n :: s.trace })
      | some false => some (.wait_suspend, { s with trace := .read me n :: s.trace })
  | .wait_suspend, s => some (.wait_blocked, { s with mtx := none })
  | .wait_blocked, _ => none
  | .wait_woken, s =>
      if s.mtx = none then some (.wait_test, { s with mtx := some me }) else none
  | .cout_out, s => some (.unlock, { s with trace := .cout_out n :: s.trace })
  | .unlock, s => some (.finished, { s with mtx := none })
  | .finished, _ => none
  | .undefined, _ => none

/-- Effect of `cv.notify_one()` on the threads: one thread blocked on `cv`
(the scheduler's choice `wake`) is unblocked; when no thread is blocked the
call has no effect.  `none` when `wake` is not a blocked thread although some
thread is blocked (not a possible outcome of the call). -/
def notify_one (wake : Nat) (threads : List PrintPc) : Option (List PrintPc) :=
  if threads[wake]? = some .wait_blocked then
    some (threads.set wake .wait_woken)
  else if .wait_blocked ∈ threads then none
  else some threads

/-- The assignment `is_ready[i] = true` of line 369. -/
def set_ready (is_ready : List Bool) (i : Nat) : List Bool :=
  is_ready.set i true

/-- The loop `for(int i = 0; i < 10; i++) { is_ready[i] = true; }` of line 369. -/
def set_all_ready (is_ready : List Bool) : List Bool :=
  (List.range 10).foldl set_ready is_ready

/-- One step of `main`.  `wake` is only used by `cv.notify_one()`. -/
def main (wake : Nat) (s : State) : Option State :=
  match s.main with
  | .init_lock =>
      if s.mtx = none then some { s with mtx := some .main, main := .init_loop 0 } else none
  | .init_loop i =>
      if i < 10 then
        some { s with is_ready := s.is_ready.set i false
                      trace := .write .main i false :: s.trace
                      main := .init_loop (i + 1) }
      else some { s with main := .init_unlock }
  | .init_unlock => some { s with mtx := none, main := .spawn 0 }
  | .spawn i =>
      if i < 10 then
        some { s with threads := s.threads.set i .entry, main := .spawn (i + 1) }
      else some { s with main := .set_lock }
  | .set_lock =>
      if s.mtx = none then some { s with mtx := some .main, main := .set_cout } else none
  | .set_cout => some { s with trace := .cout_notify_all :: s.trace, main := .set_loop 0 }
  | .set_loop i =>
      if i < 10 then
        some { s with is_ready := set_ready s.is_ready i
                      trace := .write .main i true :: s.trace
                      main := .set_loop (i + 1) }
      else some { s with main := .set_unlock }
  | .set_unlock => some { s with mtx := none, main := .notify_lock 0 }
  | .notify_lock i =>
      if i < 10 then
        if s.mtx = none then some { s with mtx := some .main, main := .notify i } else none
      else some { s with main := .join 0 }
  | .notify i =>
      match notify_one wake s.threads with
      | none => none
      | some ths =>
          some { s with threads := ths
                        trace := .notify_one :: s.trace
                        main := .notify_unlock i }
  | .notify_unlock i => some { s with mtx := none, main := .notify_lock (i + 1) }
  | .join i =>
      if i < 10 then
        if s.threads[i]? = some .finished then some { s with main := .join (i + 1) } else none
      else some { s with main := .cout_done }
  | .cout_done => some { s with trace := .cout_done :: s.trace, main := .finished }
  | .finished => none

/-- Scheduler choices. -/
inductive Choice where
  /-- Function `main` executes its next statement; `wake` selects the thread
  unblocked when that statement is `cv.notify_one()`. -/
  | main (wake : Nat)
  /-- Thread `threads[i]` executes its next statement of `print(i)`. -/
  | thread (i : Nat)
  /-- Thread `threads[i]`, blocked on `cv`, wakes up spuriously. -/
  | spurious (i : Nat)
  deriving DecidableEq, Repr

/-- One step of the whole program under a scheduler choice. -/
def step : Choice → State → Option State
  | .main wake, s => main wake s
  | .thread i, s =>
      match s.threads[i]? with
      | none => none
      | some pc =>
          match print (i : Int) (.thread i) pc s with
          | none => none
          | some (pc', s') => some { s' with threads := s'.threads.set i pc' }
  | .spurious i, s =>
      if s.threads[i]? = some .wait_blocked then
        some { s with threads := s.threads.set i .wait_woken }
      else none

/-- Runs a schedule; `none` when one of its choices is not enabled. -/
def run : List Choice → State → Option State
  | [], s => some s
  | c :: cs, s => (step c s).bind (run cs)

/-- States reachable from program start under some interleaving. -/
inductive Reachable : State → Prop where
  | init : Reachable init
  | step {s s' : State} (c : Choice) : Reachable s → step c s = some s' → Reachable s'

/-- Executions: `Steps s s'` when some schedule leads from `s` to `s'`. -/
inductive Steps : State → State → Prop where
  | refl (s : State) : Steps s s
  | tail {s s' s'' : State} (c : Choice) : Steps s s' → step c s' = some s'' → Steps s s''


/-! ## Auxiliary predicates, the invariant and schedules of the `TEST == 7` program -/

/-- Control points of `print` at which the thread owns `mtx`. -/
def holds : PrintPc → Bool
  | .cout_in | .wait_test | .wait_suspend | .cout_out | .unlock => true
  | _ => false

/-- Control points of `main` at which `main` owns `mtx`. -/
def main_holds : MainPc → Bool
  | .init_loop _ | .init_unlock | .set_cout | .set_loop _ | .set_unlock
  | .notify _ | .notify_unlock _ => true
  | _ => false

/-- Contents of `is_ready` as a function of the control point of `main`. -/
def flags_at : MainPc → List Bool
  | .init_lock | .init_loop _ | .init_unlock | .spawn _ | .set_lock | .set_cout =>
      List.replicate 10 false
  | .set_loop i => (List.range 10).map (fun j => decide (j < i))
  | _ => List.replicate 10 true

/-- Number of threads `main` has started so far. -/
def spawned : MainPc → Nat
  | .init_lock | .init_loop _ | .init_unlock => 0
  | .spawn i => i
  | _ => 10

/-- Function `main` has completed the loop of line 369. -/
def after_set : MainPc → Bool
  | .set_unlock | .notify_lock _ | .notify _ | .notify_unlock _ | .join _
  | .cout_done | .finished => true
  | _ => false

/-- Function `main` has locked `mtx` at line 366. -/
def set_begun : MainPc → Bool
  | .set_cout | .set_loop _ => true
  | pc => after_set pc

/-- Number of `cv.notify_one()` calls `main` has completed, capped at ten. -/
def notified : MainPc → Nat
  | .notify_lock k | .notify k => min k 10
  | .notify_unlock k => min (k + 1) 10
  | .join _ | .cout_done | .finished => 10
  | _ => 0

/-- Bounds of the loop counters of `main`. -/
def counter_ok : MainPc → Bool
  | .init_loop i | .spawn i | .set_loop i | .notify_lock i | .join i => decide (i ≤ 10)
  | .notify i | .notify_unlock i => decide (i < 10)
  | _ => true

/-- Control points of a running `print` that are not on the suspension path
of `cv.wait` (neither about to block, nor blocked, nor just unblocked). -/
def not_waiting : PrintPc → Bool
  | .entry | .cout_in | .wait_test | .cout_out | .unlock | .finished => true
  | _ => false

/-- The inductive invariant of the `TEST == 7` program. -/
structure Inv (s : State) : Prop where
  len_threads : s.threads.length = 10
  flags : s.is_ready = flags_at s.main
  counter : counter_ok s.main = true
  mtx_main : s.mtx = some .main ↔ main_holds s.main = true
  mtx_thread : ∀ (i : Nat) (pc : PrintPc), s.threads[i]? = some pc →
    (s.mtx = some (.thread i) ↔ holds pc = true)
  not_spawned : ∀ i : Nat, spawned s.main ≤ i → i < 10 → s.threads[i]? = some .not_started
  released : ∀ (i : Nat) (pc : PrintPc), s.threads[i]? = some pc →
    pc = .cout_out ∨ pc = .unlock ∨ pc = .finished → after_set s.main = true
  no_suspend : set_begun s.main = true → ∀ i : Nat, s.threads[i]? ≠ some .wait_suspend
  blocked : s.threads.count .wait_blocked + notified s.main ≤ 10
  defined : ∀ i : Nat, s.threads[i]? ≠ some .undefined
  notify_count : s.trace.count .notify_one = notified s.main
  owner : ∀ i : Nat, s.mtx = some (.thread i) →
    ∃ pc : PrintPc, s.threads[i]? = some pc ∧ holds pc = true
  started : ∀ i : Nat, i < spawned s.main → s.threads[i]? ≠ some .not_started


/-- State reached from program start under a schedule (program start itself
when the schedule is not executable). -/
def state_after (cs : List Choice) : State := (run cs init).getD init

/-- A complete run: all ten threads block in `cv.wait` before `main` sets the
flags; `notify_one` number `k` wakes `threads[k]`, which then runs to its end. -/
def full_schedule : List Choice :=
  List.replicate 24 (.main 0)
    ++ (List.range 10).flatMap (fun i => List.replicate 4 (.thread i))
    ++ List.replicate 14 (.main 0)
    ++ (List.range 10).flatMap
        (fun k => [.main 0, .main k, .main 0] ++ List.replicate 4 (.thread k))
    ++ List.replicate 13 (.main 0)


/-- Runs `print(n)` on thread `me` alone, for at most `fuel` statements, from
control point `pc`; stops early when the thread cannot move. -/
def print_run (n : Int) (me : Tid) : Nat → PrintPc → State → PrintPc × State
  | 0, pc, s => (pc, s)
  | fuel + 1, pc, s =>
      match print n me pc s with
      | none => (pc, s)
      | some (pc', s') => print_run n me fuel pc' s'

/-- Function `main` has completed its tenth `cv.notify_one()` (line 376 with `i = 9`). -/
def tenth_notify_done : MainPc → Bool
  | .notify_unlock i => decide (9 ≤ i)
  | .notify_lock i => decide (10 ≤ i)
  | .join _ | .cout_done | .finished => true
  | _ => false

/-- Schedule in which `main` sets all flags and enters the notify loop before
any thread has run. -/
def early_set_schedule : List Choice := List.replicate 38 (.main 0)

/-- Schedule in which all ten threads block in `cv.wait`, `main` sets the flags,
the first `notify_one` wakes `threads[0]`, and `threads[0]` passes `cv.wait`. -/
def release_schedule : List Choice :=
  List.replicate 24 (.main 0)
    ++ (List.range 10).flatMap (fun i => List.replicate 4 (.thread i))
    ++ List.replicate 14 (.main 0)
    ++ [.main 0, .main 0, .main 0, .thread 0, .thread 0]

end Test7

namespace Test56

/-- Threads of the `TEST == 5` and `TEST == 6` programs. -/
inductive Tid where
  | main
  | th_prepare
  | th_main
  deriving DecidableEq, Repr

/-- Observable actions, recorded in program order of the interleaving. -/
inductive Event where
  /-- Line `Start Preparing` written to `std::cout`. -/
  | cout_start_preparing
  /-- Line `Finish Preparing` written to `std::cout`. -/
  | cout_finish_preparing
  /-- Line `Start Main Thread` written to `std::cout`. -/
  | cout_start_main
  /-- Line `Doing task without Preparing...` written to `std::cout` (only `TEST == 6`). -/
  | cout_doing_task
  /-- Line `Wait preparation` written to `std::cout`. -/
  | cout_wait_preparation
  /-- Line `Finish Main Thread` written to `std::cout`. -/
  | cout_finish_main
  /-- Evaluation of `is_ready` by thread `t`. -/
  | read (t : Tid)
  /-- Assignment `is_ready = v` by thread `t`. -/
  | write (t : Tid) (v : Bool)
  /-- A call of `cv.notify_one()`. -/
  | notify_one
  deriving DecidableEq, Repr

/-- Control points of `do_preparing_process` (lines 205-220 and 272-286). -/
inductive PreparePc where
  /-- Thread `th_prepare` has not been created. -/
  | not_started
  /-- Line 207: `std::lock_guard lock(mtx)`. -/
  | start_lock
  /-- Line 208: output of `Start Preparing`. -/
  | cout_start
  /-- Line 209: end of scope, `mtx` released. -/
  | start_unlock
  /-- Line 214: `std::lock_guard lock(mtx)`. -/
  | finish_lock
  /-- Line 216: output of `Finish Preparing`. -/
  | cout_finish
  /-- Line 217: `is_ready = true`. -/
  | set_ready
  /-- Line 218: `cv.notify_one()`. -/
  | notify
  /-- Line 219: end of scope, `mtx` released. -/
  | finish_unlock
  /-- The call has returned. -/
  | finished
  deriving DecidableEq, Repr

/-- Control points of `do_main_process` (lines 222-246 and 288-315). -/
inductive MainProcessPc where
  /-- Thread `th_main` has not been created. -/
  | not_started
  /-- Line 226: `std::lock_guard lock(mtx)`. -/
  | start_lock
  /-- Line 228: output of `Start Main Thread`. -/
  | cout_start
  /-- Line 295 (`TEST == 6` only): output of `Doing task without Preparing...`. -/
  | cout_task
  /-- Line 229: end of scope, `mtx` released. -/
  | start_unlock
  /-- Line 232: `std::unique_lock uniq_lk(mtx)`. -/
  | wait_lock
  /-- Line 234: output of `Wait preparation`. -/
  | cout_wait
  /-- Line 235, inside `cv.wait(uniq_lk, pred)`: evaluating `is_ready`, `mtx` held. -/
  | wait_test
  /-- Line 235: the predicate was false, calling `wait(uniq_lk)`, `mtx` held. -/
  | wait_suspend
  /-- Line 235: blocked on `cv`, `mtx` released. -/
  | wait_blocked
  /-- Line 235: unblocked, re-locking `mtx`. -/
  | wait_woken
  /-- Line 244: output of `Finish Main Thread`, `mtx` held. -/
  | cout_finish
  /-- Line 245: destructor of `uniq_lk` releases `mtx`. -/
  | unlock
  /-- The call has returned. -/
  | finished
  deriving DecidableEq, Repr

/-- Control points of `main` (lines 248-256 and 317-325). -/
inductive MainPc where
  /-- Line 249: `std::thread th_prepare(...)`. -/
  | spawn_prepare
  /-- Line 250: `std::thread th_main(...)`. -/
  | spawn_main
  /-- Line 252: `th_prepare.join()`. -/
  | join_prepare
  /-- Line 253: `th_main.join()`. -/
  | join_main
  /-- Function `main` has returned. -/
  | finished
  deriving DecidableEq, Repr

/-- Global state: the globals `is_ready` and `mtx` (its owner), the control
point of every thread, and the record of observable actions (most recent
first).  The only thread that can block on `cv` is `th_main`, at
`MainProcessPc.wait_blocked`. -/
structure State where
  is_ready : Bool
  mtx : Option Tid
  main : MainPc
  th_prepare : PreparePc
  th_main : MainProcessPc
  trace : List Event
  deriving DecidableEq, Repr

/-- Program start: `bool is_ready = false`, `mtx` free, no thread created. -/
def init : State :=
  { is_ready := false
    mtx := none
    main := .spawn_prepare
    th_prepare := .not_started
    th_main := .not_started
    trace := [] }

/-- One step of `do_preparing_process` from control point `pc`. -/
def do_preparing_process : PreparePc → State → Option (PreparePc × State)
  | .not_started, _ => none
  | .start_lock, s =>
      if s.mtx = none then some (.cout_start, { s with mtx := some .th_prepare }) else none
  | .cout_start, s =>
      some (.start_unlock, { s with trace := .cout_start_preparing :: s.trace })
  | .start_unlock, s => some (.finish_lock, { s with mtx := none })
  | .finish_lock, s =>
      if s.mtx = none then some (.cout_finish, { s with mtx := some .th_prepare }) else none
  | .cout_finish, s =>
      some (.set_ready, { s with trace := .cout_finish_preparing :: s.trace })
  | .set_ready, s =>
      some (.notify, { s with is_ready := true, trace := .write .th_prepare true :: s.trace })
  | .notify, s =>
      some (.finish_unlock,
        { s with th_main := if s.th_main = .wait_blocked then .wait_woken else s.th_main
                 trace := .notify_one :: s.trace })
  | .finish_unlock, s => some (.finished, { s with mtx := none })
  | .finished, _ => none

/-- One step of `do_main_process` from control point `pc`; `test6` selects
the `TEST == 6` variant, which prints one more line in its first block. -/
def do_main_process (test6 : Bool) : MainProcessPc → State → Option (MainProcessPc × State)
  | .not_started, _ => none
  | .start_lock, s =>
      if s.mtx = none then some (.cout_start, { s with mtx := some .th_main }) else none
  | .cout_start, s =>
      some (if test6 then .cout_task else .start_unlock,
        { s with trace := .cout_start_main :: s.trace })
  | .cout_task, s => some (.start_unlock, { s with trace := .cout_doing_task :: s.trace })
  | .start_unlock, s => some (.wait_lock, { s with mtx := none })
  | .wait_lock, s =>
      if s.mtx = none then some (.cout_wait, { s with mtx := some .th_main }) else none
  | .cout_wait, s => some (.wait_test, { s with trace := .cout_wait_preparation :: s.trace })
  | .wait_test, s =>
      some (if s.is_ready then .cout_finish else .wait_suspend,
        { s with trace := .read .th_main :: s.trace })
  | .wait_suspend, s => some (.wait_blocked, { s with mtx := none })
  | .wait_blocked, _ => none
  | .wait_woken, s =>
      if s.mtx = none then some (.wait_test, { s with mtx := some .th_main }) else none
  | .cout_finish, s => some (.unlock, { s with trace := .cout_finish_main :: s.trace })
  | .unlock, s => some (.finished, { s with mtx := none })
  | .finished, _ => none

/-- One step of `main`. -/
def main (s : State) : Option State :=
  match s.main with
  | .spawn_prepare => some { s with th_prepare := .start_lock, main := .spawn_main }
  | .spawn_main => some { s with th_main := .start_lock, main := .join_prepare }
  | .join_prepare =>
      if s.th_prepare = .finished then some { s with main := .join_main } else none
  | .join_main =>
      if s.th_main = .finished then some { s with main := .finished } else none
  | .finished => none

/-- Scheduler choices. -/
inductive Choice where
  /-- Function `main` executes its next statement. -/
  | main
  /-- Thread `th_prepare` executes its next statement. -/
  | th_prepare
  /-- Thread `th_main` executes its next statement. -/
  | th_main
  /-- Thread `th_main`, blocked on `cv`, wakes up spuriously. -/
  | spurious
  deriving DecidableEq, Repr

/-- One step of the whole program under a scheduler choice. -/
def step (test6 : Bool) : Choice → State → Option State
  | .main, s => main s
  | .th_prepare, s =>
      match do_preparing_process s.th_prepare s with
      | none => none
      | some (pc', s') => some { s' with th_prepare := pc' }
  | .th_main, s =>
      match do_main_process test6 s.th_main s with
      | none => none
      | some (pc', s') => some { s' with th_main := pc' }
  | .spurious, s =>
      if s.th_main = .wait_blocked then some { s with th_main := .wait_woken } else none

/-- Runs a schedule; `none` when one of its choices is not enabled. -/
def run (test6 : Bool) : List Choice → State → Option State
  | [], s => some s
  | c :: cs, s => (step test6 c s).bind (run test6 cs)

/-- States reachable from program start under some interleaving. -/
inductive Reachable (test6 : Bool) : State → Prop where
  | init : Reachable test6 init
  | step {s s' : State} (c : Choice) :
      Reachable test6 s → step test6 c s = some s' → Reachable test6 s'

/-- Executions: `Steps test6 s s'` when some schedule leads from `s` to `s'`. -/
inductive Steps (test6 : Bool) : State → State → Prop where
  | refl (s : State) : Steps test6 s s
  | tail {s s' s'' : State} (c : Choice) :
      Steps test6 s s' → step test6 c s' = some s'' → Steps test6 s s''

/-- Control points of `do_preparing_process` at which it owns `mtx`. -/
def prepare_holds : PreparePc → Bool
  | .cout_start | .start_unlock | .cout_finish | .set_ready | .notify | .finish_unlock => true
  | _ => false

/-- Control points of `do_main_process` at which it owns `mtx`. -/
def main_process_holds : MainProcessPc → Bool
  | .cout_start | .cout_task | .start_unlock | .cout_wait | .wait_test | .wait_suspend
  | .cout_finish | .unlock => true
  | _ => false

/-- Control points of `do_main_process` after `cv.wait` has returned. -/
def past_wait : MainProcessPc → Bool
  | .cout_finish | .unlock | .finished => true
  | _ => false

/-- Control points of `do_main_process` that are not on the suspension path of
`cv.wait` (neither about to block, nor blocked, nor just unblocked). -/
def not_suspended : MainProcessPc → Bool
  | .wait_suspend | .wait_blocked | .wait_woken => false
  | _ => true

/-- State reached from program start under a schedule (program start itself
when the schedule is not executable). -/
def state_after (test6 : Bool) (cs : List Choice) : State := (run test6 cs init).getD init

/-- The inductive invariant of the `TEST == 5` / `TEST == 6` programs. -/
structure Inv (s : State) : Prop where
  mtx_prepare : s.mtx = some .th_prepare ↔ prepare_holds s.th_prepare = true
  mtx_main : s.mtx = some .th_main ↔ main_process_holds s.th_main = true
  mtx_not_main : s.mtx ≠ some .main
  released : past_wait s.th_main = true → s.is_ready = true
  spawn_prepare : s.main = .spawn_prepare → s.th_prepare = .not_started
  spawn_main : s.main = .spawn_prepare ∨ s.main = .spawn_main → s.th_main = .not_started

/-- Schedule in which `do_preparing_process` runs to its end before
`do_main_process` starts, and `do_main_process` then runs up to `cv.wait`. -/
def late_wait_schedule : List Choice :=
  [.main, .main] ++ List.replicate 8 .th_prepare ++ List.replicate 4 .th_main

/-- Schedule `late_wait_schedule` followed by the next two statements of
`do_main_process`. -/
def past_wait_schedule : List Choice :=
  late_wait_schedule ++ [.th_main, .th_main]

end Test56

/-! ## Properties of the `TEST == 7` program -/

namespace Test7

theorem flags_at_set_false (i : Nat) :
    (List.replicate 10 false).set i false = List.replicate 10 false :=
  List.set_replicate_self

theorem flags_at_set_true : ∀ i, i < 10 →
    ((List.range 10).map (fun j => decide (j < i))).set i true
      = (List.range 10).map (fun j => decide (j < i + 1)) := by
  decide

theorem flags_at_loop_zero :
    (List.range 10).map (fun j => decide (j < 0)) = List.replicate 10 false := by
  decide

theorem flags_at_loop_end (i : Nat) (h : ¬ i < 10) :
    (List.range 10).map (fun j => decide (j < i)) = List.replicate 10 true := by
  have h10 : List.replicate 10 true = (List.range 10).map (fun _ => true) := by decide
  rw [h10]
  apply List.map_congr_left
  intro j hj
  have := List.mem_range.mp hj
  simp; omega

theorem flags_at_length (pc : MainPc) : (flags_at pc).length = 10 := by
  cases pc <;> simp [flags_at]

theorem count_set_other {l : List PrintPc} {i : Nat} {x : PrintPc}
    (hx : x ≠ .wait_blocked) :
    (l.set i x).count .wait_blocked ≤ l.count .wait_blocked := by
  by_cases h : i < l.length
  · rw [List.count_set _ _ _ _ h]
    have : (x == PrintPc.wait_blocked) = false := by simpa using hx
    simp [this]
  · rw [List.set_eq_of_length_le (by omega)]

theorem count_set_unblock {l : List PrintPc} {i : Nat} {x : PrintPc}
    (hx : x ≠ .wait_blocked) (hi : l[i]? = some .wait_blocked) :
    (l.set i x).count .wait_blocked + 1 = l.count .wait_blocked := by
  obtain ⟨h, hget⟩ := List.getElem?_eq_some_iff.mp hi
  rw [List.count_set _ _ _ _ h]
  have h1 : (x == PrintPc.wait_blocked) = false := by simpa using hx
  have h2 : 0 < l.count .wait_blocked := by
    rw [List.count_pos_iff]
    exact hget ▸ List.getElem_mem h
  simp [h1, hget]
  omega

theorem count_zero_of_not_mem {l : List PrintPc} (h : PrintPc.wait_blocked ∉ l) :
    l.count .wait_blocked = 0 := List.count_eq_zero.mpr h

theorem inv_init : Inv init := by
  refine ⟨by simp [init], by simp [init, flags_at], by simp [init, counter_ok], ?_, ?_, ?_, ?_, ?_, ?_, ?_, ?_,
    ?_, ?_⟩
  · simp [init, main_holds]
  · intro i pc h
    simp only [init, List.getElem?_replicate] at h
    split at h
    · cases h; simp [init, holds]
    · cases h
  · intro i _ hi
    exact List.getElem?_replicate_of_lt hi
  · intro i pc h
    simp only [init, List.getElem?_replicate] at h
    split at h
    · cases h; simp
    · cases h
  · simp [init, set_begun, after_set]
  · simp [init, notified, List.count_replicate]
  · intro i h
    simp only [init, List.getElem?_replicate] at h
    split at h <;> cases h
  · simp [init, notified]
  · intro i h
    simp [init] at h
  · intro i h
    simp [init, spawned] at h

theorem getElem?_set_some {α : Type} {l : List α} {i j : Nat} {a b : α}
    (h : (l.set i a)[j]? = some b) : (j = i ∧ b = a) ∨ (j ≠ i ∧ l[j]? = some b) := by
  by_cases hij : i = j
  · subst hij
    rw [List.getElem?_set] at h
    simp only [if_true] at h
    split at h
    · exact Or.inl ⟨rfl, (Option.some.inj h).symm⟩
    · cases h
  · rw [List.getElem?_set_ne hij] at h
    exact Or.inr ⟨fun e => hij e.symm, h⟩

theorem notified_of_not_begun {pc : MainPc} (h : set_begun pc = false) : notified pc = 0 := by
  cases pc <;> simp_all [set_begun, after_set, notified]

theorem set_begun_of_after_set {pc : MainPc} (h : after_set pc = true) : set_begun pc = true := by
  cases pc <;> simp_all [set_begun, after_set]

/-- Update of the invariant by a step of thread `i` that moves it from `pc` to `pc'`. -/
theorem inv_thread_update {s : State} (h : Inv s) {i : Nat} {pc pc' : PrintPc}
    {m' : Option Tid} {tr' : List Event}
    (hi : s.threads[i]? = some pc)
    (hstart : pc ≠ .not_started)
    (hmtx : (m' = s.mtx ∧ holds pc' = holds pc) ∨
            (s.mtx = none ∧ m' = some (.thread i) ∧ holds pc' = true) ∨
            (holds pc = true ∧ m' = none ∧ holds pc' = false))
    (hrel : pc' = .cout_out ∨ pc' = .unlock ∨ pc' = .finished → after_set s.main = true)
    (hsus : pc' = .wait_suspend → set_begun s.main = false)
    (hblk : pc' = .wait_blocked → pc = .wait_suspend)
    (hdef : pc' ≠ .undefined)
    (hstart' : pc' ≠ .not_started)
    (htr : tr'.count .notify_one = s.trace.count .notify_one) :
    Inv { s with mtx := m', threads := s.threads.set i pc', trace := tr' } := by
  obtain ⟨h1, h2, h3, h4, h5, h6, h7, h8, h9, h10, h11, h12, h13⟩ := h
  have hown := h5 i pc hi
  refine ⟨?_, h2, h3, ?_, ?_, ?_, ?_, ?_, ?_, ?_, ?_, ?_, ?_⟩
  · simpa using h1
  · show m' = some .main ↔ main_holds s.main = true
    rcases hmtx with ⟨e, _⟩ | ⟨e, e', _⟩ | ⟨e, e', _⟩
    · rw [e]; exact h4
    · rw [← h4, e, e']; simp
    · rw [← h4, e', hown.mpr e]; simp
  · intro j pcj hj
    show m' = some (.thread j) ↔ holds pcj = true
    rcases getElem?_set_some hj with ⟨rfl, rfl⟩ | ⟨hne, hj'⟩
    · rcases hmtx with ⟨e, e2⟩ | ⟨e, e', e2⟩ | ⟨e, e', e2⟩
      · rw [e, e2]; exact hown
      · rw [e', e2]; simp
      · rw [e', e2]; simp
    · have hold := h5 j pcj hj'
      rcases hmtx with ⟨e, e2⟩ | ⟨e, e', e2⟩ | ⟨e, e', e2⟩
      · rw [e]; exact hold
      · rw [← hold, e, e']; simp; exact fun e => hne e.symm
      · rw [← hold, e', hown.mpr e]; simp; exact fun e => hne e.symm
  · intro j hj hj10
    show (s.threads.set i pc')[j]? = some .not_started
    have hold := h6 j hj hj10
    by_cases hij : i = j
    · subst hij
      rw [hi] at hold
      exact absurd (Option.some.inj hold) hstart
    · rw [List.getElem?_set_ne hij]; exact hold
  · intro j pcj hj hpc
    show after_set s.main = true
    rcases getElem?_set_some hj with ⟨rfl, rfl⟩ | ⟨hne, hj'⟩
    · exact hrel hpc
    · exact h7 j pcj hj' hpc
  · intro hb j hj
    rcases getElem?_set_some hj with ⟨rfl, e⟩ | ⟨hne, hj'⟩
    · have := hsus e.symm
      rw [show set_begun s.main = true from hb] at this
      cases this
    · exact h8 hb j hj'
  · show (s.threads.set i pc').count .wait_blocked + notified s.main ≤ 10
    by_cases hb : pc' = .wait_blocked
    · have hsusp := hblk hb
      subst hsusp
      have hnb : set_begun s.main = false := by
        cases hsb : set_begun s.main
        · rfl
        · exact absurd hi (h8 hsb i)
      rw [notified_of_not_begun hnb]
      have := List.count_le_length PrintPc.wait_blocked (s.threads.set i pc')
      simp only [List.length_set] at this
      omega
    · have := count_set_other (l := s.threads) (i := i) hb
      omega
  · intro j hj
    rcases getElem?_set_some hj with ⟨rfl, e⟩ | ⟨hne, hj'⟩
    · exact hdef e.symm
    · exact h10 j hj'
  · show tr'.count .notify_one = notified s.main
    rw [htr]; exact h11
  · intro j hj
    show ∃ pcj : PrintPc, (s.threads.set i pc')[j]? = some pcj ∧ holds pcj = true
    have hlt : i < s.threads.length := (List.getElem?_eq_some_iff.mp hi).1
    by_cases hij : i = j
    · subst hij
      refine ⟨pc', List.getElem?_set_self hlt, ?_⟩
      rcases hmtx with ⟨e, e2⟩ | ⟨e, e', e2⟩ | ⟨e, e', e2⟩
      · rw [e2]; exact hown.mp (e ▸ hj)
      · exact e2
      · rw [e'] at hj; cases hj
    · rw [List.getElem?_set_ne hij]
      rcases hmtx with ⟨e, e2⟩ | ⟨e, e', e2⟩ | ⟨e, e', e2⟩
      · exact h12 j (e ▸ hj)
      · rw [e'] at hj
        exact absurd (Tid.thread.inj (Option.some.inj hj)) hij
      · rw [e'] at hj; cases hj
  · intro j hj hjs
    rcases getElem?_set_some hjs with ⟨rfl, e⟩ | ⟨hne, hj'⟩
    · exact hstart' e.symm
    · exact h13 j hj hj'

theorem read_is_ready_natCast (l : List Bool) (i : Nat) :
    read_is_ready l (i : Int) = l[i]? := by
  simp [read_is_ready]

theorem flags_at_getElem? (pc : MainPc) {i : Nat} (hi : i < 10) :
    ∃ b, (flags_at pc)[i]? = some b := by
  have h : i < (flags_at pc).length := by rw [flags_at_length]; exact hi
  exact ⟨_, List.getElem?_eq_getElem h⟩

theorem replicate_getElem?_eq {n i : Nat} {a b : Bool}
    (h : (List.replicate n a)[i]? = some b) : a = b := by
  rw [List.getElem?_replicate] at h
  split at h
  · exact Option.some.inj h
  · cases h

theorem after_set_of_flag {pc : MainPc} {i : Nat} (hm : main_holds pc = false)
    (h : (flags_at pc)[i]? = some true) : after_set pc = true := by
  cases pc <;> first
    | rfl
    | exact absurd (replicate_getElem?_eq h) (by decide)
    | exact absurd hm (by simp [main_holds])

theorem not_begun_of_flag {pc : MainPc} {i : Nat} (hm : main_holds pc = false)
    (h : (flags_at pc)[i]? = some false) : set_begun pc = false := by
  cases pc <;> first
    | rfl
    | exact absurd (replicate_getElem?_eq h) (by decide)
    | exact absurd hm (by simp [main_holds])

theorem main_free_of_thread {s : State} (h : Inv s) {i : Nat} (hm : s.mtx = some (.thread i)) :
    main_holds s.main = false := by
  cases hh : main_holds s.main
  · rfl
  · have := h.mtx_main.mpr hh
    rw [hm] at this
    cases this

theorem step_thread_eq {s s' : State} {i : Nat} (hs : step (.thread i) s = some s') :
    ∃ pc pc' s1, s.threads[i]? = some pc ∧ print (i : Int) (.thread i) pc s = some (pc', s1)
      ∧ s' = { s1 with threads := s1.threads.set i pc' } := by
  simp only [step] at hs
  cases hi : s.threads[i]? with
  | none => rw [hi] at hs; cases hs
  | some pc =>
    rw [hi] at hs
    simp only at hs
    cases hp : print (i : Int) (.thread i) pc s with
    | none => rw [hp] at hs; cases hs
    | some r =>
      obtain ⟨pc', s1⟩ := r
      rw [hp] at hs
      exact ⟨pc, pc', s1, rfl, hp, (Option.some.inj hs).symm⟩

theorem inv_thread_step {s s' : State} {i : Nat} (h : Inv s)
    (hs : step (.thread i) s = some s') : Inv s' := by
  obtain ⟨pc, pc', s1, hi, hp, rfl⟩ := step_thread_eq hs
  have hlt : i < 10 := by
    have := (List.getElem?_eq_some_iff.mp hi).1
    rw [h.len_threads] at this; exact this
  have hown := h.mtx_thread i pc hi
  cases pc <;> simp only [print] at hp
  case not_started => cases hp
  case wait_blocked => cases hp
  case finished => cases hp
  case undefined => cases hp
  case entry =>
    split at hp
    · rename_i hm
      cases hp
      exact inv_thread_update h hi (by simp) (Or.inr (Or.inl ⟨hm, rfl, rfl⟩))
        (by simp) (by simp) (by simp) (by simp) (by simp) rfl
    · cases hp
  case wait_woken =>
    split at hp
    · rename_i hm
      cases hp
      exact inv_thread_update h hi (by simp) (Or.inr (Or.inl ⟨hm, rfl, rfl⟩))
        (by simp) (by simp) (by simp) (by simp) (by simp) rfl
    · cases hp
  case cout_in =>
    cases hp
    exact inv_thread_update h hi (by simp) (Or.inl ⟨rfl, rfl⟩)
      (by simp) (by simp) (by simp) (by simp) (by simp) (by simp [List.count_cons])
  case cout_out =>
    cases hp
    exact inv_thread_update h hi (by simp) (Or.inl ⟨rfl, rfl⟩)
      (fun _ => h.released i _ hi (Or.inl rfl)) (by simp) (by simp) (by simp) (by simp)
      (by simp [List.count_cons])
  case unlock =>
    cases hp
    exact inv_thread_update h hi (by simp) (Or.inr (Or.inr ⟨rfl, rfl, rfl⟩))
      (fun _ => h.released i _ hi (Or.inr (Or.inl rfl))) (by simp) (by simp) (by simp) (by simp) rfl
  case wait_suspend =>
    cases hp
    exact inv_thread_update h hi (by simp) (Or.inr (Or.inr ⟨rfl, rfl, rfl⟩))
      (by simp) (by simp) (by simp) (by simp) (by simp) rfl
  case wait_test =>
    have hfree := main_free_of_thread h (hown.mpr rfl)
    obtain ⟨b, hb⟩ := flags_at_getElem? s.main hlt
    have hr : read_is_ready s.is_ready (i : Int) = some b := by
      rw [read_is_ready_natCast, h.flags, hb]
    rw [hr] at hp
    cases b
    · cases hp
      exact inv_thread_update h hi (by simp) (Or.inl ⟨rfl, rfl⟩)
        (by simp) (fun _ => not_begun_of_flag hfree hb) (by simp) (by simp) (by simp)
        (by simp [List.count_cons])
    · cases hp
      exact inv_thread_update h hi (by simp) (Or.inl ⟨rfl, rfl⟩)
        (fun _ => after_set_of_flag hfree hb) (by simp) (by simp) (by simp) (by simp)
        (by simp [List.count_cons])

theorem inv_spurious {s s' : State} {i : Nat} (h : Inv s)
    (hs : step (.spurious i) s = some s') : Inv s' := by
  simp only [step] at hs
  split at hs
  · rename_i hi
    cases hs
    exact @inv_thread_update s h i _ _ s.mtx s.trace hi (by simp) (Or.inl ⟨rfl, rfl⟩)
      (by simp) (by simp) (by simp) (by simp) (by simp) rfl
  · cases hs

/-- Update of the invariant by a step of `main` that leaves the threads unchanged. -/
theorem inv_main_update {s : State} (h : Inv s) {fl' : List Bool} {m' : Option Tid}
    {pc' : MainPc} {tr' : List Event}
    (hfl : fl' = flags_at pc')
    (hc : counter_ok pc' = true)
    (hm : m' = some .main ↔ main_holds pc' = true)
    (hmt : ∀ i, m' = some (.thread i) ↔ s.mtx = some (.thread i))
    (hsp : spawned pc' = spawned s.main)
    (has : after_set s.main = true → after_set pc' = true)
    (hsb : set_begun pc' = true → set_begun s.main = true ∨ ∀ i, s.mtx ≠ some (.thread i))
    (hn : notified pc' = notified s.main)
    (htr : tr'.count .notify_one = s.trace.count .notify_one) :
    Inv { is_ready := fl', mtx := m', main := pc', threads := s.threads, trace := tr' } := by
  obtain ⟨h1, h2, h3, h4, h5, h6, h7, h8, h9, h10, h11, h12, h13⟩ := h
  refine ⟨h1, hfl, hc, hm, ?_, ?_, ?_, ?_, ?_, h10, ?_, ?_, ?_⟩
  · intro j pcj hj
    exact (hmt j).trans (h5 j pcj hj)
  · intro j hj hj10
    exact h6 j (hsp ▸ hj) hj10
  · intro j pcj hj hpc
    exact has (h7 j pcj hj hpc)
  · intro hb j hj
    rcases hsb hb with hold | hfree
    · exact h8 hold j hj
    · exact hfree j ((h5 j _ hj).mpr rfl)
  · show s.threads.count .wait_blocked + notified pc' ≤ 10
    rw [hn]; exact h9
  · show tr'.count .notify_one = notified pc'
    rw [htr, hn]; exact h11
  · intro j hj
    exact h12 j ((hmt j).mp hj)
  · intro j hj
    exact h13 j (hsp ▸ hj)

theorem inv_main_step {s s' : State} {wake : Nat} (h : Inv s)
    (hs : main wake s = some s') : Inv s' := by
  have hmain := h.mtx_main
  have hcnt := h.counter
  unfold main at hs
  split at hs
  case h_1 hpc =>
    rw [hpc] at hmain
    split at hs
    · rename_i hm
      cases hs
      exact inv_main_update h (by rw [h.flags, hpc]; rfl) rfl (by simp [main_holds])
        (by simp [hm]) (by simp [hpc, spawned]) (by simp [hpc, after_set])
        (by simp [set_begun, after_set]) (by simp [hpc, notified]) rfl
    · cases hs
  case h_2 k hpc =>
    rw [hpc] at hmain hcnt
    have hm : s.mtx = some .main := hmain.mpr rfl
    split at hs
    · cases hs
      exact inv_main_update h (by rw [h.flags, hpc]; exact flags_at_set_false k)
        (by simp only [counter_ok, decide_eq_true_eq]; omega) (by simp [hm, main_holds])
        (fun _ => Iff.rfl) (by simp [hpc, spawned]) (by simp [hpc, after_set])
        (by simp [set_begun, after_set]) (by simp [hpc, notified]) (by simp [List.count_cons])
    · cases hs
      exact inv_main_update h (by rw [h.flags, hpc]; rfl) rfl (by simp [hm, main_holds])
        (fun _ => Iff.rfl) (by simp [hpc, spawned]) (by simp [hpc, after_set])
        (by simp [set_begun, after_set]) (by simp [hpc, notified]) rfl
  case h_3 hpc =>
    rw [hpc] at hmain
    have hm : s.mtx = some .main := hmain.mpr rfl
    cases hs
    exact inv_main_update h (by rw [h.flags, hpc]; rfl) rfl (by simp [main_holds])
      (by simp [hm]) (by simp [hpc, spawned]) (by simp [hpc, after_set])
      (by simp [set_begun, after_set]) (by simp [hpc, notified]) rfl
  case h_4 k hpc =>
    rw [hpc] at hmain hcnt
    split at hs
    · rename_i hk
      cases hs
      obtain ⟨h1, h2, h3, h4, h5, h6, h7, h8, h9, h10, h11, h12, h13⟩ := h
      rw [hpc] at h2 h6 h7 h9 h11
      have hk0 : s.threads[k]? = some .not_started := h6 k (Nat.le_refl _) hk
      refine ⟨by simpa using h1, by rw [h2]; rfl,
        by simp only [counter_ok, decide_eq_true_eq]; omega, ?_, ?_, ?_, ?_, ?_, ?_, ?_, ?_,
        ?_, ?_⟩
      · simpa [main_holds] using hmain
      · intro j pcj hj
        rcases getElem?_set_some hj with ⟨rfl, rfl⟩ | ⟨hne, hj'⟩
        · have := h5 j _ hk0
          simpa [holds] using this
        · exact h5 j pcj hj'
      · intro j hj hj10
        have hne : k ≠ j := by simp only [spawned] at hj; omega
        show (s.threads.set k .entry)[j]? = some .not_started
        rw [List.getElem?_set_ne hne]
        exact h6 j (by simp only [spawned] at hj ⊢; omega) hj10
      · intro j pcj hj hpcj
        rcases getElem?_set_some hj with ⟨rfl, rfl⟩ | ⟨hne, hj'⟩
        · simp at hpcj
        · have := h7 j pcj hj' hpcj
          simp [after_set] at this
      · intro hb
        simp [set_begun, after_set] at hb
      · have := count_set_other (l := s.threads) (i := k) (x := .entry) (by simp)
        simp only [notified] at h9 ⊢
        omega
      · intro j hj
        rcases getElem?_set_some hj with ⟨rfl, e⟩ | ⟨hne, hj'⟩
        · cases e
        · exact h10 j hj'
      · simpa [notified] using h11
      · intro j hj
        obtain ⟨pcj, hpj, hh⟩ := h12 j hj
        have hne : k ≠ j := by
          rintro rfl
          rw [hk0] at hpj
          cases hpj
          cases hh
        exact ⟨pcj, by rw [List.getElem?_set_ne hne]; exact hpj, hh⟩
      · intro j hj hjs
        rcases getElem?_set_some hjs with ⟨rfl, e⟩ | ⟨hne, hj'⟩
        · cases e
        · rw [hpc] at h13
          exact h13 j (by simp only [spawned] at hj ⊢; omega) hj'
    · cases hs
      exact inv_main_update h (by rw [h.flags, hpc]; rfl) rfl (by simpa [main_holds] using hmain)
        (fun _ => Iff.rfl)
        (by simp only [counter_ok, decide_eq_true_eq] at hcnt; simp only [hpc, spawned]; omega)
        (by simp [hpc, after_set])
        (by simp [set_begun, after_set]) (by simp [hpc, notified]) rfl
  case h_5 hpc =>
    rw [hpc] at hmain
    split at hs
    · rename_i hm
      cases hs
      exact inv_main_update h (by rw [h.flags, hpc]; rfl) rfl (by simp [main_holds])
        (by simp [hm]) (by simp [hpc, spawned]) (by simp [hpc, after_set])
        (fun _ => Or.inr (by simp [hm])) (by simp [hpc, notified]) rfl
    · cases hs
  case h_6 hpc =>
    rw [hpc] at hmain
    have hm : s.mtx = some .main := hmain.mpr rfl
    cases hs
    exact inv_main_update h (by rw [h.flags, hpc]; exact flags_at_loop_zero.symm) rfl
      (by simp [hm, main_holds])
      (fun _ => Iff.rfl) (by simp [hpc, spawned]) (by simp [hpc, after_set])
      (by simp [hpc, set_begun]) (by simp [hpc, notified]) (by simp [List.count_cons])
  case h_7 k hpc =>
    rw [hpc] at hmain hcnt
    have hm : s.mtx = some .main := hmain.mpr rfl
    split at hs
    · rename_i hk
      cases hs
      exact inv_main_update h (by rw [h.flags, hpc]; exact flags_at_set_true k hk)
        (by simp only [counter_ok, decide_eq_true_eq]; omega) (by simp [hm, main_holds])
        (fun _ => Iff.rfl) (by simp [hpc, spawned]) (by simp [hpc, after_set])
        (by simp [hpc, set_begun]) (by simp [hpc, notified]) (by simp [List.count_cons])
    · rename_i hk
      cases hs
      exact inv_main_update h (by rw [h.flags, hpc]; exact flags_at_loop_end k hk) rfl
        (by simp [hm, main_holds])
        (fun _ => Iff.rfl) (by simp [hpc, spawned]) (by simp [hpc, after_set])
        (by simp [hpc, set_begun]) (by simp [hpc, notified]) rfl
  case h_8 hpc =>
    rw [hpc] at hmain
    have hm : s.mtx = some .main := hmain.mpr rfl
    cases hs
    exact inv_main_update h (by rw [h.flags, hpc]; rfl) rfl (by simp [main_holds])
      (by simp [hm]) (by simp [hpc, spawned]) (by simp [hpc, after_set])
      (by simp [hpc, set_begun, after_set]) (by simp [hpc, notified]) rfl
  case h_9 k hpc =>
    rw [hpc] at hmain hcnt
    split at hs
    · split at hs
      · rename_i hk hm
        cases hs
        exact inv_main_update h (by rw [h.flags, hpc]; rfl)
          (by simp only [counter_ok, decide_eq_true_eq]; omega) (by simp [main_holds])
          (by simp [hm]) (by simp [hpc, spawned]) (by simp [hpc, after_set])
          (by simp [hpc, set_begun, after_set]) (by simp [hpc, notified]) rfl
      · cases hs
    · rename_i hk
      cases hs
      exact inv_main_update h (by rw [h.flags, hpc]; rfl) rfl
        (by simpa [main_holds] using hmain)
        (fun _ => Iff.rfl) (by simp [hpc, spawned]) (by simp [hpc, after_set])
        (by simp [hpc, set_begun, after_set])
        (by simp only [hpc, notified]; omega) rfl
  case h_10 k hpc =>
    rw [hpc] at hmain hcnt
    have hm : s.mtx = some .main := hmain.mpr rfl
    have hk : k < 10 := by simpa [counter_ok] using hcnt
    obtain ⟨h1, h2, h3, h4, h5, h6, h7, h8, h9, h10, h11, h12, h13⟩ := h
    rw [hpc] at h2 h6 h7 h8 h9 h11 h13
    simp only [notified] at h9 h11
    cases hno : notify_one wake s.threads with
    | none => rw [hno] at hs; cases hs
    | some ths' =>
      rw [hno] at hs
      cases hs
      unfold notify_one at hno
      split at hno
      · rename_i hw
        cases hno
        refine ⟨by simpa using h1, by rw [h2]; rfl, by simpa [counter_ok] using hk,
          by simp [hm, main_holds], ?_, ?_, ?_, ?_, ?_, ?_, ?_,
          fun j hj => (by rw [hm] at hj; cases hj), ?_⟩
        · intro j pcj hj
          rcases getElem?_set_some hj with ⟨rfl, rfl⟩ | ⟨hne, hj'⟩
          · have := h5 j _ hw
            simpa [holds] using this
          · exact h5 j pcj hj'
        · intro j hj hj10
          simp only [spawned] at hj
          omega
        · intro _ _ _ _
          rfl
        · intro _ j hj
          rcases getElem?_set_some hj with ⟨rfl, e⟩ | ⟨hne, hj'⟩
          · cases e
          · exact h8 rfl j hj'
        · have := count_set_unblock (l := s.threads) (i := wake) (x := .wait_woken) (by simp) hw
          simp only [notified]
          omega
        · intro j hj
          rcases getElem?_set_some hj with ⟨rfl, e⟩ | ⟨hne, hj'⟩
          · cases e
          · exact h10 j hj'
        · simp only [notified, List.count_cons_self]
          omega
        · intro j hj hjs
          rcases getElem?_set_some hjs with ⟨rfl, e⟩ | ⟨hne, hj'⟩
          · cases e
          · exact h13 j hj hj'
      · split at hno
        · cases hno
        · rename_i hnone
          cases hno
          refine ⟨h1, by rw [h2]; rfl, by simpa [counter_ok] using hk,
            by simp [hm, main_holds], h5, ?_, ?_, ?_, ?_, h10, ?_, h12, h13⟩
          · intro j hj hj10
            simp only [spawned] at hj
            omega
          · intro _ _ _ _
            rfl
          · intro _ j hj
            exact h8 rfl j hj
          · have := count_zero_of_not_mem hnone
            simp only [notified]
            omega
          · simp only [notified, List.count_cons_self]
            omega
  case h_11 k hpc =>
    rw [hpc] at hmain hcnt
    have hm : s.mtx = some .main := hmain.mpr rfl
    cases hs
    exact inv_main_update h (by rw [h.flags, hpc]; rfl)
      (by simp only [counter_ok, decide_eq_true_eq] at hcnt ⊢; omega) (by simp [main_holds])
      (by simp [hm]) (by simp [hpc, spawned]) (by simp [hpc, after_set])
      (by simp [hpc, set_begun, after_set]) (by simp [hpc, notified]) rfl
  case h_12 k hpc =>
    rw [hpc] at hmain hcnt
    split at hs
    · split at hs
      · cases hs
        exact inv_main_update h (by rw [h.flags, hpc]; rfl)
          (by simp only [counter_ok, decide_eq_true_eq]; omega)
          (by simpa [main_holds] using hmain)
          (fun _ => Iff.rfl) (by simp [hpc, spawned]) (by simp [hpc, after_set])
          (by simp [hpc, set_begun, after_set]) (by simp [hpc, notified]) rfl
      · cases hs
    · cases hs
      exact inv_main_update h (by rw [h.flags, hpc]; rfl) rfl
        (by simpa [main_holds] using hmain)
        (fun _ => Iff.rfl) (by simp [hpc, spawned]) (by simp [hpc, after_set])
        (by simp [hpc, set_begun, after_set]) (by simp [hpc, notified]) rfl
  case h_13 hpc =>
    rw [hpc] at hmain
    cases hs
    exact inv_main_update h (by rw [h.flags, hpc]; rfl) rfl
      (by simpa [main_holds] using hmain)
      (fun _ => Iff.rfl) (by simp [hpc, spawned]) (by simp [hpc, after_set])
      (by simp [hpc, set_begun, after_set]) (by simp [hpc, notified])
      (by simp [List.count_cons])
  case h_14 hpc => cases hs

/-- The invariant is preserved by every step of the program. -/
theorem inv_step {s s' : State} {c : Choice} (h : Inv s) (hs : step c s = some s') : Inv s' := by
  cases c with
  | main wake => exact inv_main_step h hs
  | thread i => exact inv_thread_step h hs
  | spurious i => exact inv_spurious h hs

/-- Every reachable state satisfies the invariant. -/
theorem inv_of_reachable {s : State} (h : Reachable s) : Inv s := by
  induction h with
  | init => exact inv_init
  | step c _ hs ih => exact inv_step ih hs
theorem reachable_run {cs : List Choice} : ∀ {s s' : State}, Reachable s →
    run cs s = some s' → Reachable s' := by
  induction cs with
  | nil =>
    intro s s' hr h
    cases h
    exact hr
  | cons c cs ih =>
    intro s s' hr h
    simp only [run] at h
    cases hc : step c s with
    | none => rw [hc] at h; cases h
    | some s1 =>
      rw [hc] at h
      exact ih (Reachable.step c hr hc) h

theorem reachable_state_after (cs : List Choice) : Reachable (state_after cs) := by
  unfold state_after
  cases h : run cs init with
  | none => exact Reachable.init
  | some s => exact reachable_run Reachable.init h


theorem print_frame {n : Int} {me : Tid} {pc pc' : PrintPc} {s s1 : State}
    (h : print n me pc s = some (pc', s1)) :
    s1.is_ready = s.is_ready ∧ s1.main = s.main ∧ s1.threads = s.threads := by
  cases pc <;> simp only [print] at h
  all_goals (try split at h)
  all_goals cases h
  all_goals exact ⟨rfl, rfl, rfl⟩

theorem getElem?_set_true {l : List Bool} {i k : Nat} (h : l[i]? = some true) :
    (l.set k true)[i]? = some true := by
  by_cases hki : k = i
  · subst hki
    have hlt := (List.getElem?_eq_some_iff.mp h).1
    rw [List.getElem?_set_self hlt]
  · rw [List.getElem?_set_ne hki]; exact h

theorem flag_stable_main {s s' : State} {wake i : Nat} (h : Inv s)
    (hs : main wake s = some s') (hf : s.is_ready[i]? = some true) :
    s'.is_ready[i]? = some true := by
  have hfl := h.flags
  unfold main at hs
  split at hs
  case h_2 k hpc =>
    rw [hpc] at hfl
    rw [hfl] at hf
    exact absurd (replicate_getElem?_eq hf) (by decide)
  case h_7 k hpc =>
    split at hs
    · cases hs
      exact getElem?_set_true hf
    · cases hs; exact hf
  all_goals (try split at hs)
  all_goals (try split at hs)
  all_goals cases hs
  all_goals exact hf

theorem flag_stable {s s' : State} {c : Choice} {i : Nat} (h : Inv s)
    (hs : step c s = some s') (hf : s.is_ready[i]? = some true) :
    s'.is_ready[i]? = some true := by
  cases c with
  | main wake => exact flag_stable_main h hs hf
  | thread j =>
    obtain ⟨pc, pc', s1, _, hp, rfl⟩ := step_thread_eq hs
    show s1.is_ready[i]? = some true
    rw [(print_frame hp).1]; exact hf
  | spurious j =>
    simp only [step] at hs
    split at hs
    · cases hs; exact hf
    · cases hs

theorem flag_stable_steps {s s' : State} {i : Nat} (h : Inv s) (hs : Steps s s')
    (hf : s.is_ready[i]? = some true) : Inv s' ∧ s'.is_ready[i]? = some true := by
  induction hs with
  | refl => exact ⟨h, hf⟩
  | tail c _ hstep ih => exact ⟨inv_step ih.1 hstep, flag_stable ih.1 hstep ih.2⟩

theorem main_step_threads {s s' : State} {wake : Nat} (hs : main wake s = some s') :
    s'.threads = s.threads ∨ (∃ k, s'.threads = s.threads.set k .entry) ∨
      (∃ k, s.threads[k]? = some .wait_blocked ∧ s'.threads = s.threads.set k .wait_woken) := by
  unfold main at hs
  split at hs
  case h_4 k hpc =>
    split at hs
    · cases hs; exact Or.inr (Or.inl ⟨k, rfl⟩)
    · cases hs; exact Or.inl rfl
  case h_10 k hpc =>
    cases hno : notify_one wake s.threads with
    | none => rw [hno] at hs; cases hs
    | some ths' =>
      rw [hno] at hs
      cases hs
      unfold notify_one at hno
      split at hno
      · rename_i hw
        cases hno
        exact Or.inr (Or.inr ⟨wake, hw, rfl⟩)
      · split at hno
        · cases hno
        · cases hno; exact Or.inl rfl
  all_goals (try split at hs)
  all_goals (try split at hs)
  all_goals cases hs
  all_goals exact Or.inl rfl

theorem not_waiting_step {s s' : State} {c : Choice} {i : Nat}
    (hs : step c s = some s') (hf : s.is_ready[i]? = some true)
    (hp : ∃ pc, s.threads[i]? = some pc ∧ not_waiting pc = true) :
    ∃ pc', s'.threads[i]? = some pc' ∧ not_waiting pc' = true := by
  obtain ⟨pc, hi, hnw⟩ := hp
  have hlt : i < s.threads.length := (List.getElem?_eq_some_iff.mp hi).1
  cases c with
  | main wake =>
    rcases main_step_threads hs with e | ⟨k, e⟩ | ⟨k, hk, e⟩
    · rw [e]; exact ⟨pc, hi, hnw⟩
    · rw [e]
      by_cases hki : k = i
      · subst hki
        exact ⟨.entry, List.getElem?_set_self hlt, rfl⟩
      · rw [List.getElem?_set_ne hki]; exact ⟨pc, hi, hnw⟩
    · rw [e]
      have hki : k ≠ i := by
        rintro rfl
        rw [hi] at hk
        cases hk
        cases hnw
      rw [List.getElem?_set_ne hki]; exact ⟨pc, hi, hnw⟩
  | spurious k =>
    simp only [step] at hs
    split at hs
    · rename_i hk
      cases hs
      have hki : k ≠ i := by
        rintro rfl
        rw [hi] at hk
        cases hk
        cases hnw
      show ∃ pc', (s.threads.set k .wait_woken)[i]? = some pc' ∧ _
      rw [List.getElem?_set_ne hki]; exact ⟨pc, hi, hnw⟩
    · cases hs
  | thread j =>
    obtain ⟨pcj, pc', s1, hj, hpr, rfl⟩ := step_thread_eq hs
    show ∃ pc'', (s1.threads.set j pc')[i]? = some pc'' ∧ _
    rw [(print_frame hpr).2.2]
    by_cases hji : j = i
    · subst hji
      rw [List.getElem?_set_self hlt]
      refine ⟨pc', rfl, ?_⟩
      rw [hi] at hj
      cases hj
      cases pc with
      | not_started => cases hnw
      | wait_blocked => cases hnw
      | undefined => cases hnw
      | wait_suspend => cases hnw
      | wait_woken => cases hnw
      | finished => simp only [print] at hpr; cases hpr
      | entry =>
        simp only [print] at hpr
        split at hpr
        · cases hpr; rfl
        · cases hpr
      | cout_in => simp only [print] at hpr; cases hpr; rfl
      | cout_out => simp only [print] at hpr; cases hpr; rfl
      | unlock => simp only [print] at hpr; cases hpr; rfl
      | wait_test =>
        simp only [print] at hpr
        rw [read_is_ready_natCast, hf] at hpr
        cases hpr
        rfl
    · rw [List.getElem?_set_ne hji]; exact ⟨pc, hi, hnw⟩

theorem not_waiting_steps {s s' : State} {i : Nat} (h : Inv s) (hs : Steps s s')
    (hf : s.is_ready[i]? = some true)
    (hp : ∃ pc, s.threads[i]? = some pc ∧ not_waiting pc = true) :
    Inv s' ∧ s'.is_ready[i]? = some true ∧
      ∃ pc', s'.threads[i]? = some pc' ∧ not_waiting pc' = true := by
  induction hs with
  | refl => exact ⟨h, hf, hp⟩
  | tail c _ hstep ih =>
    exact ⟨inv_step ih.1 hstep, flag_stable ih.1 hstep ih.2.1,
      not_waiting_step hstep ih.2.1 ih.2.2⟩

theorem wait_test_returns {s : State} {i : Nat} (hf : s.is_ready[i]? = some true)
    (hi : s.threads[i]? = some .wait_test) :
    ∃ s'', step (.thread i) s = some s'' ∧ s''.threads[i]? = some .cout_out := by
  have hlt : i < s.threads.length := (List.getElem?_eq_some_iff.mp hi).1
  refine ⟨{ s with trace := .read (.thread i) (i : Int) :: s.trace,
                   threads := s.threads.set i .cout_out }, ?_, ?_⟩
  · simp only [step, hi, print, read_is_ready_natCast, hf]
  · exact List.getElem?_set_self hlt

theorem main_step_access {s s' : State} {wake : Nat} {ev : Event}
    (hs : main wake s = some s') (htr : s'.trace = ev :: s.trace) :
    (∀ t n, ev ≠ .read t n) ∧
    (∀ t i v, ev = .write t i v →
      t = .main ∧ main_holds s.main = true ∧ s'.mtx = s.mtx ∧
        (v = false → ∃ k, s.main = .init_loop k)) := by
  unfold main at hs
  split at hs
  all_goals (try split at hs)
  all_goals (try split at hs)
  all_goals cases hs
  all_goals first
    | exact absurd htr.symm (List.cons_ne_self _ _)
    | (cases htr
       refine ⟨fun _ _ e => (nomatch e), fun _ _ _ e => ?_⟩
       cases e <;> simp_all [main_holds])

theorem print_access {n : Int} {me : Tid} {pc pc' : PrintPc} {s s1 : State} {ev : Event}
    (hp : print n me pc s = some (pc', s1)) (htr : s1.trace = ev :: s.trace) :
    (∀ t i v, ev ≠ .write t i v) ∧
    (∀ t k, ev = .read t k → t = me ∧ pc = .wait_test ∧ s1.mtx = s.mtx) := by
  cases pc <;> simp only [print] at hp
  all_goals (try split at hp)
  all_goals cases hp
  all_goals first
    | exact absurd htr.symm (List.cons_ne_self _ _)
    | (cases htr
       refine ⟨fun _ _ _ e => (nomatch e), fun _ _ e => ?_⟩
       cases e <;> exact ⟨rfl, rfl, rfl⟩)

theorem thread_enabled {s : State} {i : Nat} {pc : PrintPc} (hi : s.threads[i]? = some pc)
    (hen : holds pc = true ∨ (s.mtx = none ∧ (pc = .entry ∨ pc = .wait_woken))) :
    ∃ s', step (.thread i) s = some s' := by
  simp only [step, hi]
  cases pc with
  | not_started => simp [holds] at hen
  | wait_blocked => simp [holds] at hen
  | finished => simp [holds] at hen
  | undefined => simp [holds] at hen
  | entry =>
    have hm : s.mtx = none := by simpa [holds] using hen
    simp [print, hm]
  | wait_woken =>
    have hm : s.mtx = none := by simpa [holds] using hen
    simp [print, hm]
  | cout_in => simp [print]
  | wait_suspend => simp [print]
  | cout_out => simp [print]
  | unlock => simp [print]
  | wait_test =>
    simp only [print]
    cases read_is_ready s.is_ready (i : Int) with
    | none => exact ⟨_, rfl⟩
    | some b => cases b <;> exact ⟨_, rfl⟩

theorem notify_one_enabled (ths : List PrintPc) : ∃ wake ths', notify_one wake ths = some ths' := by
  by_cases hb : PrintPc.wait_blocked ∈ ths
  · obtain ⟨w, hw⟩ := List.mem_iff_getElem?.mp hb
    exact ⟨w, ths.set w .wait_woken, by simp [notify_one, hw]⟩
  · exact ⟨0, ths, by
      have h0 : ths[0]? ≠ some .wait_blocked := fun e => hb (List.mem_iff_getElem?.mpr ⟨0, e⟩)
      simp [notify_one, h0, hb]⟩

theorem main_step_enabled {s : State}
    (h : main_holds s.main = true ∨
      (s.mtx = none ∧ s.main ≠ .finished ∧
        ∀ k, s.main = .join k → k < 10 → s.threads[k]? = some .finished)) :
    ∃ wake s', main wake s = some s' := by
  obtain ⟨wake, ths', hn⟩ := notify_one_enabled s.threads
  refine ⟨wake, ?_⟩
  cases hpc : s.main with
  | init_lock =>
    have hm : s.mtx = none := by simpa [hpc, main_holds] using h
    simp only [main, hpc, hm, if_true]; exact ⟨_, rfl⟩
  | set_lock =>
    have hm : s.mtx = none := by simpa [hpc, main_holds] using h
    simp only [main, hpc, hm, if_true]; exact ⟨_, rfl⟩
  | notify_lock k =>
    have hm : s.mtx = none := by simpa [hpc, main_holds] using h
    simp only [main, hpc, hm, if_true]
    split <;> exact ⟨_, rfl⟩
  | init_loop k => simp only [main, hpc]; split <;> exact ⟨_, rfl⟩
  | set_loop k => simp only [main, hpc]; split <;> exact ⟨_, rfl⟩
  | spawn k => simp only [main, hpc]; split <;> exact ⟨_, rfl⟩
  | init_unlock => simp only [main, hpc]; exact ⟨_, rfl⟩
  | set_cout => simp only [main, hpc]; exact ⟨_, rfl⟩
  | set_unlock => simp only [main, hpc]; exact ⟨_, rfl⟩
  | notify_unlock k => simp only [main, hpc]; exact ⟨_, rfl⟩
  | cout_done => simp only [main, hpc]; exact ⟨_, rfl⟩
  | notify k => simp only [main, hpc, hn]; exact ⟨_, rfl⟩
  | finished => simp [hpc, main_holds] at h
  | join k =>
    have hj : k < 10 → s.threads[k]? = some .finished := by
      rcases h with h | ⟨_, _, h⟩
      · simp [hpc, main_holds] at h
      · exact h k hpc
    simp only [main, hpc]
    split
    · rename_i hk
      simp only [hj hk, if_true]; exact ⟨_, rfl⟩
    · exact ⟨_, rfl⟩

/-- No deadlock: in every state satisfying the invariant in which `main` has not
returned, `main` or one of the threads can execute its next statement. -/
theorem inv_progress {s : State} (h : Inv s) (hfin : s.main ≠ .finished) :
    ∃ c s', (∀ i, c ≠ .spurious i) ∧ step c s = some s' := by
  have main_ok : (∃ wake s', main wake s = some s') →
      ∃ c s', (∀ i, c ≠ .spurious i) ∧ step c s = some s' := by
    rintro ⟨wake, s', hs⟩
    exact ⟨.main wake, s', fun _ e => (nomatch e), hs⟩
  have thread_ok : ∀ i, (∃ s', step (.thread i) s = some s') →
      ∃ c s', (∀ i, c ≠ .spurious i) ∧ step c s = some s' := by
    rintro i ⟨s', hs⟩
    exact ⟨.thread i, s', fun _ e => (nomatch e), hs⟩
  cases hm : s.mtx with
  | some t =>
    cases t with
    | thread i =>
      obtain ⟨pc, hi, hh⟩ := h.owner i hm
      exact thread_ok i (thread_enabled hi (Or.inl hh))
    | main => exact main_ok (main_step_enabled (Or.inl (h.mtx_main.mp hm)))
  | none =>
    by_cases hjoin : ∃ k, s.main = .join k ∧ k < 10 ∧ s.threads[k]? ≠ some .finished
    · obtain ⟨k, hpc, hk, hf⟩ := hjoin
      have hlt : k < s.threads.length := by rw [h.len_threads]; exact hk
      have hi : s.threads[k]? = some s.threads[k] := List.getElem?_eq_getElem hlt
      have hcount := h.blocked
      rw [hpc] at hcount
      simp only [notified] at hcount
      have hnb : PrintPc.wait_blocked ∉ s.threads := by
        apply List.count_eq_zero.mp
        omega
      apply thread_ok k
      cases hpk : s.threads[k] with
      | finished => rw [hpk] at hi; exact absurd hi hf
      | not_started =>
        rw [hpk] at hi
        exact absurd hi (h.started k (by rw [hpc]; exact hk))
      | undefined => rw [hpk] at hi; exact absurd hi (h.defined k)
      | wait_blocked =>
        rw [hpk] at hi
        exact absurd (List.mem_iff_getElem?.mpr ⟨k, hi⟩) hnb
      | entry => rw [hpk] at hi; exact thread_enabled hi (Or.inr ⟨hm, Or.inl rfl⟩)
      | wait_woken => rw [hpk] at hi; exact thread_enabled hi (Or.inr ⟨hm, Or.inr rfl⟩)
      | cout_in => rw [hpk] at hi; exact thread_enabled hi (Or.inl rfl)
      | wait_test => rw [hpk] at hi; exact thread_enabled hi (Or.inl rfl)
      | wait_suspend => rw [hpk] at hi; exact thread_enabled hi (Or.inl rfl)
      | cout_out => rw [hpk] at hi; exact thread_enabled hi (Or.inl rfl)
      | unlock => rw [hpk] at hi; exact thread_enabled hi (Or.inl rfl)
    · refine main_ok (main_step_enabled (Or.inr ⟨hm, hfin, fun k hpc hk => ?_⟩))
      by_contra hf
      exact hjoin ⟨k, hpc, hk, hf⟩

theorem no_blocked_of_notified {s : State} (h : Inv s) (hn : notified s.main = 10) (i : Nat) :
    s.threads[i]? ≠ some .wait_blocked ∧ s.threads[i]? ≠ some .wait_suspend := by
  have hcount := h.blocked
  rw [hn] at hcount
  have hnb : PrintPc.wait_blocked ∉ s.threads := by
    apply List.count_eq_zero.mp
    omega
  refine ⟨fun e => hnb (List.mem_iff_getElem?.mpr ⟨i, e⟩), ?_⟩
  apply h.no_suspend
  cases hpc : s.main <;> rw [hpc] at hn <;> simp [notified, set_begun, after_set] at hn ⊢

theorem is_ready_change {s s' : State} {c : Choice} (h : Inv s)
    (hs : step c s = some s') (hne : s'.is_ready ≠ s.is_ready) :
    (∃ wake, c = .main wake) ∧ s.mtx = some .main := by
  cases c with
  | thread j =>
    obtain ⟨pc, pc', s1, _, hpr, rfl⟩ := step_thread_eq hs
    exact absurd (print_frame hpr).1 hne
  | spurious j =>
    simp only [step] at hs
    split at hs
    · cases hs; exact absurd rfl hne
    · cases hs
  | main wake =>
    refine ⟨⟨wake, rfl⟩, ?_⟩
    have hm := h.mtx_main
    simp only [step] at hs
    unfold main at hs
    split at hs
    case h_2 k hpc => exact hm.mpr (by rw [hpc]; rfl)
    case h_7 k hpc => exact hm.mpr (by rw [hpc]; rfl)
    all_goals (try split at hs)
    all_goals (try split at hs)
    all_goals cases hs
    all_goals exact absurd rfl hne

theorem steps_of_run (cs : List Choice) : ∀ {s s' : State}, run cs s = some s' → Steps s s' := by
  induction cs using List.reverseRecOn with
  | nil =>
    intro s s' h
    cases h
    exact Steps.refl s
  | append_singleton cs c ih =>
    intro s s' h
    have hrun : ∀ (xs ys : List Choice) (t : State),
        run (xs ++ ys) t = (run xs t).bind (run ys) := by
      intro xs
      induction xs with
      | nil => intro ys t; rfl
      | cons x xs ihx =>
        intro ys t
        simp only [List.cons_append, run]
        cases step x t with
        | none => rfl
        | some t' => exact ihx ys t'
    rw [hrun] at h
    cases h1 : run cs s with
    | none => rw [h1] at h; cases h
    | some s1 =>
      rw [h1] at h
      simp only [Option.some_bind, run] at h
      cases h2 : step c s1 with
      | none => rw [h2] at h; cases h
      | some s2 =>
        rw [h2] at h
        cases h
        exact Steps.tail c (ih h1) h2

theorem enter_cout_out {s s' : State} {c : Choice} {i : Nat}
    (hs : step c s = some s') (hpre : s.threads[i]? ≠ some .cout_out)
    (hpost : s'.threads[i]? = some .cout_out) :
    c = .thread i ∧ s.threads[i]? = some .wait_test ∧ s.is_ready[i]? = some true := by
  cases c with
  | main wake =>
    rcases main_step_threads hs with e | ⟨k, e⟩ | ⟨k, _, e⟩
    · rw [e] at hpost; exact absurd hpost hpre
    · rw [e] at hpost
      rcases getElem?_set_some hpost with ⟨_, e'⟩ | ⟨_, h'⟩
      · cases e'
      · exact absurd h' hpre
    · rw [e] at hpost
      rcases getElem?_set_some hpost with ⟨_, e'⟩ | ⟨_, h'⟩
      · cases e'
      · exact absurd h' hpre
  | spurious k =>
    simp only [step] at hs
    split at hs
    · cases hs
      rcases getElem?_set_some hpost with ⟨_, e'⟩ | ⟨_, h'⟩
      · cases e'
      · exact absurd h' hpre
    · cases hs
  | thread j =>
    obtain ⟨pc, pc', s1, hj, hpr, rfl⟩ := step_thread_eq hs
    have hth := (print_frame hpr).2.2
    change (s1.threads.set j pc')[i]? = some .cout_out at hpost
    rw [hth] at hpost
    rcases getElem?_set_some hpost with ⟨rfl, e'⟩ | ⟨_, h'⟩
    · subst e'
      refine ⟨rfl, ?_⟩
      cases pc with
      | not_started => simp only [print] at hpr; cases hpr
      | wait_blocked => simp only [print] at hpr; cases hpr
      | finished => simp only [print] at hpr; cases hpr
      | undefined => simp only [print] at hpr; cases hpr
      | entry => simp only [print] at hpr; split at hpr <;> cases hpr
      | wait_woken => simp only [print] at hpr; split at hpr <;> cases hpr
      | cout_in => simp only [print] at hpr; cases hpr
      | wait_suspend => simp only [print] at hpr; cases hpr
      | cout_out => exact absurd hj hpre
      | unlock => simp only [print] at hpr; cases hpr
      | wait_test =>
        refine ⟨hj, ?_⟩
        simp only [print] at hpr
        rw [read_is_ready_natCast] at hpr
        cases hr : s.is_ready[i]? with
        | none => rw [hr] at hpr; cases hpr
        | some b =>
          cases b
          · rw [hr] at hpr; cases hpr
          · rfl
    · exact absurd h' hpre

theorem flags_at_all_true {pc : MainPc} (h : after_set pc = true) :
    flags_at pc = List.replicate 10 true := by
  cases pc <;> first
    | rfl
    | exact absurd h (by simp [after_set])

theorem flags_uniform {pc : MainPc} (h : main_holds pc = false) :
    flags_at pc = List.replicate 10 false ∨ flags_at pc = List.replicate 10 true := by
  cases pc <;> first
    | exact Or.inl rfl
    | exact Or.inr rfl
    | exact absurd h (by simp [main_holds])

theorem notified_of_tenth {pc : MainPc} (h : tenth_notify_done pc = true) :
    notified pc = 10 := by
  cases pc <;> simp only [tenth_notify_done, decide_eq_true_eq] at h <;>
    simp only [notified] <;> first
    | omega
    | exact absurd h (by simp)

theorem set_ready_comm (l : List Bool) (i j : Nat) :
    set_ready (set_ready l i) j = set_ready (set_ready l j) i := by
  unfold set_ready
  by_cases h : i = j
  · rw [h]
  · exact List.set_comm true true l h

theorem foldl_set_ready (is : List Nat) (l : List Bool) (i : Nat) :
    is.foldl set_ready (set_ready l i) = set_ready (is.foldl set_ready l) i := by
  induction is generalizing l with
  | nil => rfl
  | cons a is ih =>
    simp only [List.foldl_cons]
    rw [set_ready_comm l i a, ih]

theorem foldl_set_ready_idem (is : List Nat) (l : List Bool) :
    is.foldl set_ready (is.foldl set_ready l) = is.foldl set_ready l := by
  induction is generalizing l with
  | nil => rfl
  | cons a is ih =>
    simp only [List.foldl_cons]
    have hidem : set_ready (set_ready (is.foldl set_ready l) a) a
        = set_ready (is.foldl set_ready l) a := List.set_set true true _ a
    rw [foldl_set_ready is l a, hidem, foldl_set_ready is _ a, ih]

theorem set_loop_run (n : Nat) : ∀ (j : Nat) (s : State), s.main = .set_loop j → j + n ≤ 10 →
    ∃ s', run (List.replicate n (.main 0)) s = some s' ∧ s'.main = .set_loop (j + n) ∧
      s'.is_ready = (List.range' j n).foldl set_ready s.is_ready := by
  induction n with
  | zero =>
    intro j s h _
    exact ⟨s, rfl, h, rfl⟩
  | succ n ih =>
    intro j s h hle
    have hj : j < 10 := by omega
    have hstep : step (.main 0) s = some { s with is_ready := set_ready s.is_ready j
                                                  trace := .write .main j true :: s.trace
                                                  main := .set_loop (j + 1) } := by
      simp only [step, main, h, hj, if_true]
    obtain ⟨s', hrun, hm, hfl⟩ := ih (j + 1) _ (rfl : (State.mk (set_ready s.is_ready j) s.mtx
      (.set_loop (j + 1)) s.threads (.write .main j true :: s.trace)).main = _) (by omega)
    refine ⟨s', ?_, ?_, ?_⟩
    · simp only [List.replicate_succ, run, hstep, Option.some_bind]
      exact hrun
    · rw [hm]; congr 1; omega
    · rw [hfl, List.range'_succ, List.foldl_cons]

/-! ### Claims about the `TEST == 7` program -/

/-- C3, as amended: `print` performs no range check.  For `n < 0` or `n >= 10`, a call
`print(n)` that finds `mtx` free locks it, prints `THREAD in  n` and then evaluates
`is_ready[n]` outside the ten elements of the array (undefined behaviour); for
`0 <= n < 10` the evaluation is inside the array and the call continues normally. -/
theorem print_has_no_range_check (n : Int) (me : Tid) (s : State)
    (hlen : s.is_ready.length = 10) (hm : s.mtx = none) :
    (n < 0 ∨ 10 ≤ n →
      print_run n me 3 .entry s =
        (.undefined,
          { s with mtx := some me, trace := .read me n :: .cout_in n :: s.trace })) ∧
    (0 ≤ n → n < 10 →
      (print_run n me 3 .entry s).1 = .cout_out ∨
        (print_run n me 3 .entry s).1 = .wait_suspend) := by
  constructor
  · intro hn
    have hread : read_is_ready s.is_ready n = none := by
      unfold read_is_ready
      split
      · rfl
      · rename_i hneg
        apply List.getElem?_eq_none
        rw [hlen]
        omega
    simp only [print_run, print, hm, if_true, hread]
  · intro h0 h10
    obtain ⟨k, rfl⟩ := Int.eq_ofNat_of_zero_le h0
    have hk : k < s.is_ready.length := by rw [hlen]; omega
    have hread : read_is_ready s.is_ready (k : Int) = some s.is_ready[k] := by
      rw [read_is_ready_natCast]; exact List.getElem?_eq_getElem hk
    simp only [print_run, print, hm, if_true, hread]
    cases s.is_ready[k]
    · exact Or.inr rfl
    · exact Or.inl rfl

/-- Witness for C3 (amended): `print(10)` called at program start. -/
theorem print_has_no_range_check_witness :
    print_run 10 (.thread 0) 3 .entry init =
      (.undefined,
        { init with mtx := some (.thread 0)
                    trace := [.read (.thread 0) 10, .cout_in 10] }) :=
  (print_has_no_range_check 10 (.thread 0) init (by decide) (by decide)).1
    (Or.inr (by decide))

/-- Counterexample to C3: `print(10)` and `print(-1)` are not rejected.  Each locks
`mtx`, prints `THREAD in  n` and evaluates `is_ready[n]` out of bounds, and a call
that finds `mtx` owned by another thread blocks at the lock. -/
theorem print_out_of_range_counterexample :
    print_run 10 (.thread 0) 3 .entry init =
        (.undefined,
          { init with mtx := some (.thread 0)
                      trace := [.read (.thread 0) 10, .cout_in 10] }) ∧
    print_run (-1) (.thread 0) 3 .entry init =
        (.undefined,
          { init with mtx := some (.thread 0)
                      trace := [.read (.thread 0) (-1), .cout_in (-1)] }) ∧
    print 10 (.thread 0) .entry { init with mtx := some .main } = none := by
  decide

/-- C4 (guard discipline): in every reachable state of the `TEST == 7` program, a step
that evaluates an element of `is_ready` (the predicate of `cv.wait` in `print`) or
assigns one (the two loops of `main`) is taken by a thread that owns `mtx`, before and
after the access; and a step that changes `is_ready` at all is a step of `main` taken
while `main` owns `mtx`. -/
theorem guard_discipline (s s' : State) (c : Choice) (hr : Reachable s)
    (hs : step c s = some s') :
    (∀ (ev : Event) (t : Tid), s'.trace = ev :: s.trace →
      (∃ n, ev = .read t n) ∨ (∃ i v, ev = .write t i v) →
      s.mtx = some t ∧ s'.mtx = some t) ∧
    (s'.is_ready ≠ s.is_ready → (∃ wake, c = .main wake) ∧ s.mtx = some .main) := by
  have hinv := inv_of_reachable hr
  refine ⟨fun ev t htr hacc => ?_, fun hne => is_ready_change hinv hs hne⟩
  cases c with
  | main wake =>
    obtain ⟨hrd, hwr⟩ := main_step_access hs htr
    rcases hacc with ⟨n, e⟩ | ⟨i, v, e⟩
    · exact absurd e (hrd t n)
    · obtain ⟨rfl, hh, hsame, _⟩ := hwr t i v e
      have := hinv.mtx_main.mpr hh
      exact ⟨this, hsame ▸ this⟩
  | spurious k =>
    simp only [step] at hs
    split at hs
    · cases hs
      exact absurd htr.symm (List.cons_ne_self _ _)
    · cases hs
  | thread j =>
    obtain ⟨pc, pc', s1, hj, hpr, rfl⟩ := step_thread_eq hs
    obtain ⟨hwr, hrd⟩ := print_access hpr htr
    rcases hacc with ⟨n, e⟩ | ⟨i, v, e⟩
    · obtain ⟨rfl, rfl, hsame⟩ := hrd t n e
      have := (hinv.mtx_thread j _ hj).mpr rfl
      exact ⟨this, by show s1.mtx = _; rw [hsame]; exact this⟩
    · exact absurd e (hwr t i v)

/-- Witness for C4: the first assignment `is_ready[0] = false` of `main`. -/
theorem guard_discipline_witness :
    (state_after [.main 0]).mtx = some .main ∧
      (state_after [.main 0, .main 0]).mtx = some .main :=
  (guard_discipline (state_after [.main 0]) (state_after [.main 0, .main 0]) (.main 0)
    (reachable_state_after _) (by decide)).1 (.write .main 0 false) .main (by decide)
    (Or.inr ⟨0, false, rfl⟩)

/-- C5 (atomic bulk update): `main` owns `mtx` during the whole loop that sets the
flags; once the loop is complete every `is_ready[i]` is true; and whenever `mtx` is not
owned by `main` (in particular whenever a `print` thread owns it) the flags are either
all ten false or all ten true. -/
theorem bulk_update_atomic (s : State) (hr : Reachable s) :
    (∀ i, s.main = .set_loop i → s.mtx = some .main) ∧
    (after_set s.main = true → s.is_ready = List.replicate 10 true) ∧
    (s.mtx ≠ some .main →
      s.is_ready = List.replicate 10 false ∨ s.is_ready = List.replicate 10 true) := by
  have hinv := inv_of_reachable hr
  refine ⟨fun i hi => hinv.mtx_main.mpr (by rw [hi]; rfl), fun h => ?_, fun h => ?_⟩
  · rw [hinv.flags]; exact flags_at_all_true h
  · rw [hinv.flags]
    apply flags_uniform
    cases hh : main_holds s.main
    · rfl
    · exact absurd (hinv.mtx_main.mpr hh) h

/-- Witness for C5: the state in which `threads[0]` has just passed `cv.wait`. -/
theorem bulk_update_atomic_witness :
    (state_after release_schedule).mtx = some (.thread 0) ∧
      (state_after release_schedule).is_ready = List.replicate 10 true :=
  ⟨by decide,
    (bulk_update_atomic (state_after release_schedule) (reachable_state_after _)).2.1
      (by decide)⟩

/-- C7 (monotonic flags): from every reachable state, a flag that is true stays true in
every later state of the run, and every assignment of `false` to a flag happens in a
state in which no flag is true. -/
theorem flags_monotonic (s : State) (hr : Reachable s) :
    (∀ (s' : State) (i : Nat), Steps s s' → s.is_ready[i]? = some true →
      s'.is_ready[i]? = some true) ∧
    (∀ (c : Choice) (s' : State) (t : Tid) (i : Nat), step c s = some s' →
      s'.trace = .write t i false :: s.trace → s.is_ready = List.replicate 10 false) := by
  have hinv := inv_of_reachable hr
  constructor
  · intro s' i hs hf
    exact (flag_stable_steps hinv hs hf).2
  · intro c s' t i hs htr
    cases c with
    | main wake =>
      obtain ⟨k, hk⟩ := ((main_step_access hs htr).2 t i false rfl).2.2.2 rfl
      rw [hinv.flags, hk]
      rfl
    | spurious k =>
      simp only [step] at hs
      split at hs
      · cases hs
        exact absurd htr.symm (List.cons_ne_self _ _)
      · cases hs
    | thread j =>
      obtain ⟨pc, pc', s1, hj, hpr, rfl⟩ := step_thread_eq hs
      exact absurd rfl ((print_access hpr htr).1 t i false)

/-- Witness for C7: from the state in which `main` has set all flags and no thread has
run, to the state in which `threads[0]` has reached the predicate of `cv.wait`. -/
theorem flags_monotonic_witness :
    (state_after (early_set_schedule ++ [.thread 0, .thread 0])).is_ready[3]? = some true :=
  (flags_monotonic (state_after early_set_schedule) (reachable_state_after _)).1
    (state_after (early_set_schedule ++ [.thread 0, .thread 0])) 3
    (steps_of_run [.thread 0, .thread 0] (by decide)) (by decide)

/-- C8 (idempotence): assigning `is_ready[i] = true` twice, or running the loop of line
369 twice, leaves `is_ready` exactly as doing it once; the loop of `main` computes
`set_all_ready`; and `print` therefore takes the same step from either array. -/
theorem mark_ready_idempotent (s : State) (i : Nat) :
    set_ready (set_ready s.is_ready i) i = set_ready s.is_ready i ∧
    set_all_ready (set_all_ready s.is_ready) = set_all_ready s.is_ready ∧
    (s.main = .set_loop 0 →
      (run (List.replicate 10 (.main 0)) s).map State.is_ready
        = some (set_all_ready s.is_ready)) ∧
    (∀ (n : Int) (me : Tid) (pc : PrintPc),
      print n me pc { s with is_ready := set_ready (set_ready s.is_ready i) i }
        = print n me pc { s with is_ready := set_ready s.is_ready i } ∧
      print n me pc { s with is_ready := set_all_ready (set_all_ready s.is_ready) }
        = print n me pc { s with is_ready := set_all_ready s.is_ready }) := by
  have h1 : set_ready (set_ready s.is_ready i) i = set_ready s.is_ready i :=
    List.set_set true true _ i
  have h2 : set_all_ready (set_all_ready s.is_ready) = set_all_ready s.is_ready :=
    foldl_set_ready_idem _ _
  refine ⟨h1, h2, fun hm => ?_, fun n me pc => ⟨by rw [h1], by rw [h2]⟩⟩
  obtain ⟨s', hrun, _, hfl⟩ := set_loop_run 10 0 s hm (by omega)
  rw [hrun, Option.map_some', hfl]
  unfold set_all_ready
  rw [List.range_eq_range']

/-- C9 (initial flags): when `main` is about to create the first `print` thread, every
`is_ready[i]` with `0 <= i < 10` is false and no thread has been created. -/
theorem flags_false_at_first_spawn (s : State) (hr : Reachable s) (hpc : s.main = .spawn 0) :
    (∀ i, i < 10 → s.is_ready[i]? = some false) ∧
    (∀ i, i < 10 → s.threads[i]? = some .not_started) := by
  have hinv := inv_of_reachable hr
  constructor
  · intro i hi
    rw [hinv.flags, hpc]
    exact List.getElem?_replicate_of_lt hi
  · intro i hi
    exact hinv.not_spawned i (by rw [hpc]; exact Nat.zero_le _) hi

/-- Witness for C9: `main` has run the initialisation loop and nothing else. -/
theorem flags_false_at_first_spawn_witness :
    (state_after (List.replicate 13 (.main 0))).is_ready[9]? = some false ∧
    (state_after (List.replicate 13 (.main 0))).threads[9]? = some .not_started :=
  ⟨(flags_false_at_first_spawn (state_after (List.replicate 13 (.main 0)))
      (reachable_state_after _) (by decide)).1 9 (by decide),
    (flags_false_at_first_spawn (state_after (List.replicate 13 (.main 0)))
      (reachable_state_after _) (by decide)).2 9 (by decide)⟩

/-- C10, as amended: the repeated `notify_one` loop releases every waiter of this
program.  In every interleaving, once the tenth `cv.notify_one()` has been made, no
`print` thread is blocked on `cv` or about to block, every flag is true, and the
program is not deadlocked: unless `main` has returned, `main` or a thread can execute
its next statement. -/
theorem notify_one_loop_releases_all (s : State) (hr : Reachable s)
    (hd : tenth_notify_done s.main = true) :
    (∀ i : Nat, s.threads[i]? ≠ some .wait_blocked ∧ s.threads[i]? ≠ some .wait_suspend) ∧
    s.is_ready = List.replicate 10 true ∧
    (s.main ≠ .finished → ∃ c s', (∀ i, c ≠ .spurious i) ∧ step c s = some s') := by
  have hinv := inv_of_reachable hr
  refine ⟨no_blocked_of_notified hinv (notified_of_tenth hd), ?_, inv_progress hinv⟩
  rw [hinv.flags]
  apply flags_at_all_true
  cases hpc : s.main <;> rw [hpc] at hd <;> first
    | rfl
    | exact absurd hd (by simp [tenth_notify_done])

/-- Witness for C10 (amended): the end of the run in which all ten threads were
blocked in `cv.wait` before the flags were set. -/
theorem notify_one_loop_releases_all_witness :
    (state_after full_schedule).threads[9]? ≠ some .wait_blocked ∧
      (state_after full_schedule).threads[9]? ≠ some .wait_suspend :=
  (notify_one_loop_releases_all (state_after full_schedule) (reachable_state_after _)
    (by decide)).1 9

/-- Counterexample to C10: no interleaving of the `TEST == 7` program reaches a state
in which the tenth `cv.notify_one()` has been made and a `print` thread is still
blocked on `cv`. -/
theorem notify_one_loop_counterexample :
    ¬ ∃ (s : State) (i : Nat), Reachable s ∧ tenth_notify_done s.main = true ∧
      s.threads[i]? = some .wait_blocked := by
  rintro ⟨s, i, hr, hd, hb⟩
  exact (no_blocked_of_notified (inv_of_reachable hr) (notified_of_tenth hd) i).1 hb

end Test7

/-! ## Properties of the `TEST == 5` and `TEST == 6` programs -/

namespace Test56

theorem inv56_init : Inv init := by
  refine ⟨?_, ?_, ?_, ?_, ?_, ?_⟩ <;> simp [init, prepare_holds, main_process_holds, past_wait]

/-- Update of the invariant by a step of `th_prepare`. -/
theorem inv_prepare_update {s : State} (h : Inv s) {pc' : PreparePc} {m' : Option Tid}
    {b' : Bool} {tm' : MainProcessPc} {tr' : List Event}
    (hstart : s.th_prepare ≠ .not_started)
    (hmtx : (m' = s.mtx ∧ prepare_holds pc' = prepare_holds s.th_prepare) ∨
            (s.mtx = none ∧ m' = some .th_prepare ∧ prepare_holds pc' = true) ∨
            (prepare_holds s.th_prepare = true ∧ m' = none ∧ prepare_holds pc' = false))
    (hb : s.is_ready = true → b' = true)
    (htm : tm' = s.th_main ∨ (s.th_main = .wait_blocked ∧ tm' = .wait_woken)) :
    Inv { is_ready := b', mtx := m', main := s.main, th_prepare := pc', th_main := tm',
          trace := tr' } := by
  obtain ⟨h1, h2, h3, h4, h5, h6⟩ := h
  have hholds : main_process_holds tm' = main_process_holds s.th_main := by
    rcases htm with e | ⟨e, e'⟩
    · rw [e]
    · rw [e, e']; rfl
  have hpast : past_wait tm' = past_wait s.th_main := by
    rcases htm with e | ⟨e, e'⟩
    · rw [e]
    · rw [e, e']; rfl
  refine ⟨?_, ?_, ?_, ?_, ?_, ?_⟩
  · show m' = some .th_prepare ↔ prepare_holds pc' = true
    rcases hmtx with ⟨e, e2⟩ | ⟨e, e', e2⟩ | ⟨e, e', e2⟩
    · rw [e, e2]; exact h1
    · rw [e', e2]; simp
    · rw [e', e2]; simp
  · show m' = some .th_main ↔ main_process_holds tm' = true
    rw [hholds, ← h2]
    rcases hmtx with ⟨e, e2⟩ | ⟨e, e', e2⟩ | ⟨e, e', e2⟩
    · rw [e]
    · rw [e, e']; simp
    · rw [e', h1.mpr e]; simp
  · show m' ≠ some .main
    rcases hmtx with ⟨e, e2⟩ | ⟨e, e', e2⟩ | ⟨e, e', e2⟩
    · rw [e]; exact h3
    · rw [e']; simp
    · rw [e']; simp
  · intro hp
    show b' = true
    exact hb (h4 (hpast ▸ hp))
  · intro e
    exact absurd (h5 e) hstart
  · intro e
    show tm' = .not_started
    have e0 := h6 e
    rcases htm with e1 | ⟨e1, _⟩
    · rw [e1]; exact e0
    · rw [e0] at e1; cases e1

/-- Update of the invariant by a step of `th_main`. -/
theorem inv_main_process_update {s : State} (h : Inv s) {pc' : MainProcessPc}
    {m' : Option Tid} {tr' : List Event}
    (hstart : s.th_main ≠ .not_started)
    (hmtx : (m' = s.mtx ∧ main_process_holds pc' = main_process_holds s.th_main) ∨
            (s.mtx = none ∧ m' = some .th_main ∧ main_process_holds pc' = true) ∨
            (main_process_holds s.th_main = true ∧ m' = none ∧ main_process_holds pc' = false))
    (hrel : past_wait pc' = true → s.is_ready = true) :
    Inv { is_ready := s.is_ready, mtx := m', main := s.main, th_prepare := s.th_prepare,
          th_main := pc', trace := tr' } := by
  obtain ⟨h1, h2, h3, h4, h5, h6⟩ := h
  refine ⟨?_, ?_, ?_, hrel, h5, ?_⟩
  · show m' = some .th_prepare ↔ prepare_holds s.th_prepare = true
    rw [← h1]
    rcases hmtx with ⟨e, e2⟩ | ⟨e, e', e2⟩ | ⟨e, e', e2⟩
    · rw [e]
    · rw [e, e']; simp
    · rw [e', h2.mpr e]; simp
  · show m' = some .th_main ↔ main_process_holds pc' = true
    rcases hmtx with ⟨e, e2⟩ | ⟨e, e', e2⟩ | ⟨e, e', e2⟩
    · rw [e, e2]; exact h2
    · rw [e', e2]; simp
    · rw [e', e2]; simp
  · show m' ≠ some .main
    rcases hmtx with ⟨e, e2⟩ | ⟨e, e', e2⟩ | ⟨e, e', e2⟩
    · rw [e]; exact h3
    · rw [e']; simp
    · rw [e']; simp
  · intro e
    exact absurd (h6 e) hstart

theorem step_prepare_eq {test6 : Bool} {s s' : State}
    (hs : step test6 .th_prepare s = some s') :
    ∃ pc' s1, do_preparing_process s.th_prepare s = some (pc', s1)
      ∧ s' = { s1 with th_prepare := pc' } := by
  simp only [step] at hs
  cases hp : do_preparing_process s.th_prepare s with
  | none => rw [hp] at hs; cases hs
  | some r =>
    obtain ⟨pc', s1⟩ := r
    rw [hp] at hs
    exact ⟨pc', s1, rfl, (Option.some.inj hs).symm⟩

theorem step_main_process_eq {test6 : Bool} {s s' : State}
    (hs : step test6 .th_main s = some s') :
    ∃ pc' s1, do_main_process test6 s.th_main s = some (pc', s1)
      ∧ s' = { s1 with th_main := pc' } := by
  simp only [step] at hs
  cases hp : do_main_process test6 s.th_main s with
  | none => rw [hp] at hs; cases hs
  | some r =>
    obtain ⟨pc', s1⟩ := r
    rw [hp] at hs
    exact ⟨pc', s1, rfl, (Option.some.inj hs).symm⟩

theorem inv56_step {test6 : Bool} {s s' : State} {c : Choice} (h : Inv s)
    (hs : step test6 c s = some s') : Inv s' := by
  cases c
  case main =>
    obtain ⟨b, m, mpc, ppc, tpc, tr⟩ := s
    obtain ⟨h1, h2, h3, h4, h5, h6⟩ := h
    simp only at h1 h2 h3 h4 h5 h6
    cases mpc <;> simp only [step, main] at hs
    case spawn_prepare =>
      cases hs
      have e1 := h5 rfl
      have e2 := h6 (Or.inl rfl)
      subst e1 e2
      exact ⟨by simpa [prepare_holds] using h1, h2, h3, h4, by simp, by simp⟩
    case spawn_main =>
      cases hs
      have e2 := h6 (Or.inr rfl)
      subst e2
      exact ⟨h1, by simpa [main_process_holds] using h2, h3, by simp [past_wait], by simp,
        by simp⟩
    case join_prepare =>
      split at hs
      · cases hs
        exact ⟨h1, h2, h3, h4, by simp, by simp⟩
      · cases hs
    case join_main =>
      split at hs
      · cases hs
        exact ⟨h1, h2, h3, h4, by simp, by simp⟩
      · cases hs
    case finished => cases hs
  case th_prepare =>
    obtain ⟨pc', s1, hp, rfl⟩ := step_prepare_eq hs
    cases hpc : s.th_prepare <;> rw [hpc] at hp <;> simp only [do_preparing_process] at hp
    case not_started => cases hp
    case finished => cases hp
    case start_lock =>
      split at hp
      · rename_i hm
        cases hp
        exact inv_prepare_update h (by simp [hpc]) (Or.inr (Or.inl ⟨hm, rfl, rfl⟩)) id
          (Or.inl rfl)
      · cases hp
    case finish_lock =>
      split at hp
      · rename_i hm
        cases hp
        exact inv_prepare_update h (by simp [hpc]) (Or.inr (Or.inl ⟨hm, rfl, rfl⟩)) id
          (Or.inl rfl)
      · cases hp
    case cout_start =>
      cases hp
      exact inv_prepare_update h (by simp [hpc]) (Or.inl ⟨rfl, by rw [hpc]; rfl⟩) id (Or.inl rfl)
    case cout_finish =>
      cases hp
      exact inv_prepare_update h (by simp [hpc]) (Or.inl ⟨rfl, by rw [hpc]; rfl⟩) id (Or.inl rfl)
    case set_ready =>
      cases hp
      exact inv_prepare_update h (by simp [hpc]) (Or.inl ⟨rfl, by rw [hpc]; rfl⟩)
        (fun _ => rfl) (Or.inl rfl)
    case notify =>
      cases hp
      refine inv_prepare_update h (by simp [hpc]) (Or.inl ⟨rfl, by rw [hpc]; rfl⟩) id ?_
      by_cases e : s.th_main = .wait_blocked
      · exact Or.inr ⟨e, by simp [e]⟩
      · exact Or.inl (by simp [e])
    case start_unlock =>
      cases hp
      exact inv_prepare_update h (by simp [hpc]) (Or.inr (Or.inr ⟨by rw [hpc]; rfl, rfl, rfl⟩))
        id (Or.inl rfl)
    case finish_unlock =>
      cases hp
      exact inv_prepare_update h (by simp [hpc]) (Or.inr (Or.inr ⟨by rw [hpc]; rfl, rfl, rfl⟩))
        id (Or.inl rfl)
  case th_main =>
    obtain ⟨pc', s1, hp, rfl⟩ := step_main_process_eq hs
    have hrel := h.released
    cases hpc : s.th_main <;> rw [hpc] at hp hrel <;> simp only [do_main_process] at hp
    case not_started => cases hp
    case finished => cases hp
    case wait_blocked => cases hp
    case start_lock =>
      split at hp
      · rename_i hm
        cases hp
        exact inv_main_process_update h (by simp [hpc])
          (Or.inr (Or.inl ⟨hm, rfl, rfl⟩)) (by simp [past_wait])
      · cases hp
    case wait_lock =>
      split at hp
      · rename_i hm
        cases hp
        exact inv_main_process_update h (by simp [hpc])
          (Or.inr (Or.inl ⟨hm, rfl, rfl⟩)) (by simp [past_wait])
      · cases hp
    case wait_woken =>
      split at hp
      · rename_i hm
        cases hp
        exact inv_main_process_update h (by simp [hpc])
          (Or.inr (Or.inl ⟨hm, rfl, rfl⟩)) (by simp [past_wait])
      · cases hp
    case cout_start =>
      cases hp
      cases test6
      · exact inv_main_process_update h (by simp [hpc])
          (Or.inl ⟨rfl, by rw [hpc]; rfl⟩) (by simp [past_wait])
      · exact inv_main_process_update h (by simp [hpc])
          (Or.inl ⟨rfl, by rw [hpc]; rfl⟩) (by simp [past_wait])
    case cout_task =>
      cases hp
      exact inv_main_process_update h (by simp [hpc])
        (Or.inl ⟨rfl, by rw [hpc]; rfl⟩) (by simp [past_wait])
    case cout_wait =>
      cases hp
      exact inv_main_process_update h (by simp [hpc])
        (Or.inl ⟨rfl, by rw [hpc]; rfl⟩) (by simp [past_wait])
    case wait_test =>
      cases hp
      refine @inv_main_process_update s h
        (if s.is_ready = true then .cout_finish else .wait_suspend) _ _ (by simp [hpc])
        (Or.inl ⟨rfl, ?_⟩) ?_
      · rw [hpc]; cases s.is_ready <;> rfl
      · intro hp
        cases hb : s.is_ready
        · rw [hb] at hp; simp [past_wait] at hp
        · rfl
    case cout_finish =>
      cases hp
      exact inv_main_process_update h (by simp [hpc])
        (Or.inl ⟨rfl, by rw [hpc]; rfl⟩) (fun _ => hrel rfl)
    case wait_suspend =>
      cases hp
      exact inv_main_process_update h (by simp [hpc])
        (Or.inr (Or.inr ⟨by rw [hpc]; rfl, rfl, rfl⟩)) (by simp [past_wait])
    case start_unlock =>
      cases hp
      exact inv_main_process_update h (by simp [hpc])
        (Or.inr (Or.inr ⟨by rw [hpc]; rfl, rfl, rfl⟩)) (by simp [past_wait])
    case unlock =>
      cases hp
      exact inv_main_process_update h (by simp [hpc])
        (Or.inr (Or.inr ⟨by rw [hpc]; rfl, rfl, rfl⟩)) (fun _ => hrel rfl)
  case spurious =>
    simp only [step] at hs
    split at hs
    · rename_i hb
      cases hs
      exact @inv_main_process_update s h _ s.mtx s.trace (by simp [hb])
        (Or.inl ⟨rfl, by rw [hb]; rfl⟩) (by simp [past_wait])
    · cases hs

/-- Every reachable state satisfies the invariant. -/
theorem inv56_of_reachable {test6 : Bool} {s : State} (h : Reachable test6 s) : Inv s := by
  induction h with
  | init => exact inv56_init
  | step c _ hs ih => exact inv56_step ih hs

theorem not_suspended_step {test6 : Bool} {s s' : State} {c : Choice}
    (hs : step test6 c s = some s') (hf : s.is_ready = true)
    (hp : not_suspended s.th_main = true) :
    s'.is_ready = true ∧ not_suspended s'.th_main = true := by
  cases c
  case main =>
    simp only [step, main] at hs
    split at hs
    all_goals (try split at hs)
    all_goals cases hs
    all_goals first
      | exact ⟨hf, hp⟩
      | exact ⟨hf, rfl⟩
  case spurious =>
    simp only [step] at hs
    split at hs
    · rename_i hb
      rw [hb] at hp
      cases hp
    · cases hs
  case th_prepare =>
    obtain ⟨pc', s1, hpr, rfl⟩ := step_prepare_eq hs
    have hnb : s.th_main ≠ .wait_blocked := by
      intro e
      rw [e] at hp
      cases hp
    cases hpc : s.th_prepare <;> rw [hpc] at hpr <;> simp only [do_preparing_process] at hpr
    all_goals (try split at hpr)
    all_goals cases hpr
    all_goals first
      | exact ⟨hf, hp⟩
      | exact ⟨rfl, hp⟩
      | exact absurd (by assumption) hnb
  case th_main =>
    obtain ⟨pc', s1, hpr, rfl⟩ := step_main_process_eq hs
    cases hpc : s.th_main <;> rw [hpc] at hpr hp <;> simp only [do_main_process] at hpr
    all_goals (try split at hpr)
    all_goals cases hpr
    all_goals first
      | exact ⟨hf, rfl⟩
      | exact absurd hf (by assumption)
      | cases hp

theorem not_suspended_steps {test6 : Bool} {s s' : State} (hs : Steps test6 s s')
    (hf : s.is_ready = true) (hp : not_suspended s.th_main = true) :
    s'.is_ready = true ∧ not_suspended s'.th_main = true := by
  induction hs with
  | refl => exact ⟨hf, hp⟩
  | tail c _ hstep ih => exact not_suspended_step hstep ih.1 ih.2

theorem wait_test_returns56 {test6 : Bool} {s : State} (hf : s.is_ready = true)
    (hi : s.th_main = .wait_test) :
    ∃ s'', step test6 .th_main s = some s'' ∧ s''.th_main = .cout_finish := by
  refine ⟨{ s with trace := .read .th_main :: s.trace, th_main := .cout_finish }, ?_, rfl⟩
  simp only [step, hi, do_main_process, hf, if_true]

theorem reachable56_run {test6 : Bool} {cs : List Choice} : ∀ {s s' : State},
    Reachable test6 s → run test6 cs s = some s' → Reachable test6 s' := by
  induction cs with
  | nil =>
    intro s s' hr h
    cases h
    exact hr
  | cons c cs ih =>
    intro s s' hr h
    simp only [run] at h
    cases hc : step test6 c s with
    | none => rw [hc] at h; cases h
    | some s1 =>
      rw [hc] at h
      exact ih (Reachable.step c hr hc) h

theorem reachable56_state_after (test6 : Bool) (cs : List Choice) :
    Reachable test6 (state_after test6 cs) := by
  unfold state_after
  cases h : run test6 cs init with
  | none => exact Reachable.init
  | some s => exact reachable56_run Reachable.init h


theorem steps56_of_run {test6 : Bool} (cs : List Choice) : ∀ {s s' : State},
    run test6 cs s = some s' → Steps test6 s s' := by
  induction cs using List.reverseRecOn with
  | nil =>
    intro s s' h
    cases h
    exact Steps.refl s
  | append_singleton cs c ih =>
    intro s s' h
    have hrun : ∀ (xs ys : List Choice) (t : State),
        run test6 (xs ++ ys) t = (run test6 xs t).bind (run test6 ys) := by
      intro xs
      induction xs with
      | nil => intro ys t; rfl
      | cons x xs ihx =>
        intro ys t
        simp only [List.cons_append, run]
        cases step test6 x t with
        | none => rfl
        | some t' => exact ihx ys t'
    rw [hrun] at h
    cases h1 : run test6 cs s with
    | none => rw [h1] at h; cases h
    | some s1 =>
      rw [h1] at h
      simp only [Option.some_bind, run] at h
      cases h2 : step test6 c s1 with
      | none => rw [h2] at h; cases h
      | some s2 =>
        rw [h2] at h
        cases h
        exact Steps.tail c (ih h1) h2

end Test56

/-! ### Claims about `cv.wait(lock, pred)` in all three programs -/

/-- C1 (no return from `cv.wait` without the flag): in every interleaving, spurious
wake-ups and notifications for other indices included, (a) whenever `print(i)` is at
the statement `THREAD out i`, `is_ready[i]` is true and the thread owns `mtx`; (b) a
thread arrives at that statement only by its own step from the predicate test of
`cv.wait`, taken in a state where `is_ready[i]` is true and it owns `mtx`; (c) whenever
`do_main_process` is at `Finish Main Thread`, `is_ready` is true and it owns `mtx`. -/
theorem wait_returns_only_when_ready :
    (∀ (s : Test7.State) (i : Nat), Test7.Reachable s →
      s.threads[i]? = some Test7.PrintPc.cout_out →
      s.is_ready[i]? = some true ∧ s.mtx = some (Test7.Tid.thread i)) ∧
    (∀ (s s' : Test7.State) (c : Test7.Choice) (i : Nat), Test7.Reachable s →
      Test7.step c s = some s' →
      s.threads[i]? ≠ some Test7.PrintPc.cout_out →
      s'.threads[i]? = some Test7.PrintPc.cout_out →
      c = Test7.Choice.thread i ∧ s.threads[i]? = some Test7.PrintPc.wait_test ∧
        s.is_ready[i]? = some true ∧ s.mtx = some (Test7.Tid.thread i)) ∧
    (∀ (test6 : Bool) (s : Test56.State), Test56.Reachable test6 s →
      s.th_main = Test56.MainProcessPc.cout_finish →
      s.is_ready = true ∧ s.mtx = some Test56.Tid.th_main) := by
  refine ⟨?_, ?_, ?_⟩
  · intro s i hr hi
    have hinv := Test7.inv_of_reachable hr
    have hlt : i < 10 := by
      have := (List.getElem?_eq_some_iff.mp hi).1
      rw [hinv.len_threads] at this; exact this
    refine ⟨?_, (hinv.mtx_thread i _ hi).mpr rfl⟩
    rw [hinv.flags, Test7.flags_at_all_true (hinv.released i _ hi (Or.inl rfl))]
    exact List.getElem?_replicate_of_lt hlt
  · intro s s' c i hr hs hpre hpost
    have hinv := Test7.inv_of_reachable hr
    obtain ⟨hc, hpc, hf⟩ := Test7.enter_cout_out hs hpre hpost
    exact ⟨hc, hpc, hf, (hinv.mtx_thread i _ hpc).mpr rfl⟩
  · intro test6 s hr hpc
    have hinv := Test56.inv56_of_reachable hr
    exact ⟨hinv.released (by rw [hpc]; rfl), hinv.mtx_main.mpr (by rw [hpc]; rfl)⟩

/-- Witness for C1: `threads[0]` at `THREAD out 0` after having been blocked and woken,
and `do_main_process` of `TEST == 5` at `Finish Main Thread`. -/
theorem wait_returns_only_when_ready_witness :
    ((Test7.state_after Test7.release_schedule).is_ready[0]? = some true ∧
      (Test7.state_after Test7.release_schedule).mtx = some (Test7.Tid.thread 0)) ∧
    ((Test56.state_after false Test56.past_wait_schedule).is_ready = true ∧
      (Test56.state_after false Test56.past_wait_schedule).mtx = some Test56.Tid.th_main) :=
  ⟨wait_returns_only_when_ready.1 _ 0 (Test7.reachable_state_after _) (by decide),
    wait_returns_only_when_ready.2.2 false _ (Test56.reachable56_state_after _ _)
      (by decide)⟩

/-- C2 (no missed wake-up): if the flag is already true when a waiter is about to lock
`mtx`, has locked it, or is evaluating the predicate of `cv.wait`, then in the rest of
the run the waiter is never about to block, blocked on `cv`, or woken from it, and its
predicate test leads straight to the statement after `cv.wait`.  This holds for
`print(i)` of `TEST == 7` with every `i` in `0..9` and for `do_main_process` of
`TEST == 6` (and of `TEST == 5`). -/
theorem no_missed_wakeup :
    (∀ (s s' : Test7.State) (i : Nat), Test7.Reachable s →
      s.is_ready[i]? = some true →
      (s.threads[i]? = some Test7.PrintPc.entry ∨ s.threads[i]? = some Test7.PrintPc.cout_in
        ∨ s.threads[i]? = some Test7.PrintPc.wait_test) →
      Test7.Steps s s' →
      (s'.threads[i]? ≠ some Test7.PrintPc.wait_suspend ∧
        s'.threads[i]? ≠ some Test7.PrintPc.wait_blocked ∧
        s'.threads[i]? ≠ some Test7.PrintPc.wait_woken) ∧
      (s'.threads[i]? = some Test7.PrintPc.wait_test →
        ∃ s'', Test7.step (Test7.Choice.thread i) s' = some s'' ∧
          s''.threads[i]? = some Test7.PrintPc.cout_out)) ∧
    (∀ (test6 : Bool) (s s' : Test56.State), Test56.Reachable test6 s →
      s.is_ready = true →
      (s.th_main = Test56.MainProcessPc.wait_lock ∨ s.th_main = Test56.MainProcessPc.cout_wait
        ∨ s.th_main = Test56.MainProcessPc.wait_test) →
      Test56.Steps test6 s s' →
      (s'.th_main ≠ Test56.MainProcessPc.wait_suspend ∧
        s'.th_main ≠ Test56.MainProcessPc.wait_blocked ∧
        s'.th_main ≠ Test56.MainProcessPc.wait_woken) ∧
      (s'.th_main = Test56.MainProcessPc.wait_test →
        ∃ s'', Test56.step test6 Test56.Choice.th_main s' = some s'' ∧
          s''.th_main = Test56.MainProcessPc.cout_finish)) := by
  constructor
  · intro s s' i hr hf hpc hs
    have hp : ∃ pc, s.threads[i]? = some pc ∧ Test7.not_waiting pc = true := by
      rcases hpc with h | h | h <;> exact ⟨_, h, rfl⟩
    obtain ⟨_, hf', pc', hpc', hnw⟩ :=
      Test7.not_waiting_steps (Test7.inv_of_reachable hr) hs hf hp
    refine ⟨⟨?_, ?_, ?_⟩, fun h => Test7.wait_test_returns hf' h⟩ <;>
    · intro e
      rw [hpc'] at e
      cases e
      cases hnw
  · intro test6 s s' hr hf hpc hs
    have hp : Test56.not_suspended s.th_main = true := by
      rcases hpc with h | h | h <;> rw [h] <;> rfl
    obtain ⟨hf', hnw⟩ := Test56.not_suspended_steps hs hf hp
    refine ⟨⟨?_, ?_, ?_⟩, fun h => Test56.wait_test_returns56 hf' h⟩ <;>
    · intro e
      rw [e] at hnw
      cases hnw

/-- Witness for C2: in `TEST == 7`, `main` sets the flags before `threads[0]` has run,
and `threads[0]` then reaches the predicate test; in `TEST == 6`,
`do_preparing_process` finishes before `do_main_process` locks `mtx` for `cv.wait`. -/
theorem no_missed_wakeup_witness :
    (∃ s'', Test7.step (Test7.Choice.thread 0)
        (Test7.state_after (Test7.early_set_schedule ++
          [Test7.Choice.thread 0, Test7.Choice.thread 0])) = some s'' ∧
      s''.threads[0]? = some Test7.PrintPc.cout_out) ∧
    (∃ s'', Test56.step true Test56.Choice.th_main
        (Test56.state_after true Test56.past_wait_schedule) = some s'' ∧
      s''.th_main = Test56.MainProcessPc.cout_finish) :=
  ⟨(no_missed_wakeup.1 (Test7.state_after Test7.early_set_schedule)
      (Test7.state_after (Test7.early_set_schedule ++
        [Test7.Choice.thread 0, Test7.Choice.thread 0])) 0
      (Test7.reachable_state_after _) (by decide) (Or.inl (by decide))
      (Test7.steps_of_run [Test7.Choice.thread 0, Test7.Choice.thread 0]
        (by decide))).2 (by decide),
    (no_missed_wakeup.2 true (Test56.state_after true Test56.late_wait_schedule)
      (Test56.state_after true Test56.past_wait_schedule)
      (Test56.reachable56_state_after _ _) (by decide) (Or.inl (by decide))
      (Test56.steps56_of_run [Test56.Choice.th_main, Test56.Choice.th_main]
        (by decide))).2 (by decide)⟩
